import Mathlib

/-!
# medusa: contract registry and coverage report generation

A shallow embedding of `fuzzing/contracts/contract.go` and
`fuzzing/coverage/report_generation.go`, followed by the properties proved
about them.

Conventions of the embedding

* A Go `[]byte` is a `List Nat`, a Go `string` a `String`, a Go `int` an `Int`.
* A Go `map[string]bool` is a function `String → Option Bool`: `none` for an
  absent key.  Contracts are built by `NewContract`, which allocates the map
  with `make`, so the map of a contract is never the nil map.
* Types declared in `compilation/types` and in go-ethereum (`CompiledContract`,
  `Compilation`, `abi.ABI`, `abi.Method`) carry the fields the embedded code
  reads.  `CompiledContract.IsMatch` lives outside the embedded files and is a
  parameter `isMatch` of the matcher.
-/

namespace Medusa

/-! ## fuzzing/contracts/contract.go -/

/-- The part of go-ethereum's `abi.Method` the code reads: the signature `Sig`. -/
structure Method where
  Name : String
  Sig : String
deriving DecidableEq, Repr

/-- The part of go-ethereum's `abi.ABI` the code reads.  `Methods` is a Go map from
method name to `Method`; the list holds its values in the order one `range` visits
them (any order: the statements below hold for every list). -/
structure ABI where
  Methods : List Method
deriving DecidableEq, Repr

/-- The `types.CompiledContract` of a contract: its ABI and its two bytecodes. -/
structure CompiledContract where
  Abi : ABI
  InitBytecode : List Nat
  RuntimeBytecode : List Nat
deriving DecidableEq, Repr

/-- The `types.Compilation` a contract belongs to; the embedded code only stores the
reference and hands it back, so a tag identifying the compilation is all it carries. -/
structure Compilation where
  tag : Nat
deriving DecidableEq, Repr

/-- A Go `map[string]bool`. -/
abbrev MethodMap := String → Option Bool

/-- The map `make(map[string]bool)` returns. -/
def MethodMap.empty : MethodMap := fun _ => none

/-- The assignment `m[k] = v`. -/
def MethodMap.set (m : MethodMap) (k : String) (v : Bool) : MethodMap :=
  fun s => if s = k then some v else m s

/-- Contract describes a compiled smart contract. -/
structure Contract where
  name : String
  sourcePath : String
  compiledContract : CompiledContract
  compilation : Compilation
  callableMethods : MethodMap

/-- Contracts describes an array of contracts. -/
abbrev Contracts := List Contract

/-- Name returns the name of the contract. -/
def Contract.Name (c : Contract) : String := c.name

/-- SourcePath returns the path of the source file containing the contract. -/
def Contract.SourcePath (c : Contract) : String := c.sourcePath

/-- CompiledContract returns the compiled contract information. -/
def Contract.CompiledContract (c : Contract) : CompiledContract := c.compiledContract

/-- Compilation returns the compilation which contains the CompiledContract. -/
def Contract.Compilation (c : Contract) : Compilation := c.compilation

/-- CallableMethods returns the callable methods of the contract. -/
def Contract.CallableMethods (c : Contract) : MethodMap := c.callableMethods

/-- NewContract: the `range` loop over `abi.Methods` sets `callableMethods[method.Sig] = true`
for each method, starting from the empty map. -/
def NewContract (name : String) (sourcePath : String) (compiledContract : CompiledContract)
    (compilation : Compilation) : Contract :=
  let abi := compiledContract.Abi
  let callableMethods :=
    abi.Methods.foldl (fun m method => MethodMap.set m method.Sig true) MethodMap.empty
  { name := name
    sourcePath := sourcePath
    compiledContract := compiledContract
    compilation := compilation
    callableMethods := callableMethods }

/-- WhiteListFunction adds a function to the whitelist: `c.callableMethods[methodToAdd] = true`. -/
def Contract.WhiteListFunction (c : Contract) (methodToAdd : String) : Contract :=
  { c with callableMethods := MethodMap.set c.callableMethods methodToAdd true }

/-- BlackListFunction removes a function from the whitelist:
`c.callableMethods[methodToRemove] = false`. -/
def Contract.BlackListFunction (c : Contract) (methodToRemove : String) : Contract :=
  { c with callableMethods := MethodMap.set c.callableMethods methodToRemove false }

/-- The loop `for i := 0; i < len(c); i++` of `MatchBytecode`, from index `i`, with `fuel`
iterations left to run.  `some` is the returned contract `c[i]`, `none` the nil result. -/
def matchLoop (isMatch : CompiledContract → List Nat → List Nat → Bool) (c : Contracts)
    (initBytecode runtimeBytecode : List Nat) : Nat → Nat → Option Contract
  | 0, _ => none
  | fuel + 1, i =>
    if h : i < c.length then
      if isMatch (c.get ⟨i, h⟩).CompiledContract initBytecode runtimeBytecode then
        some (c.get ⟨i, h⟩)
      else
        matchLoop isMatch c initBytecode runtimeBytecode fuel (i + 1)
    else
      none

/-- MatchBytecode takes init and/or runtime bytecode and attempts to match it to a contract
definition in the list.  The loop runs at most `len(c)` iterations. -/
def Contracts.MatchBytecode (isMatch : CompiledContract → List Nat → List Nat → Bool)
    (c : Contracts) (initBytecode runtimeBytecode : List Nat) : Option Contract :=
  matchLoop isMatch c initBytecode runtimeBytecode c.length 0

/-! ## fuzzing/coverage/report_generation.go

The file talks to the outside world: the source analysis, the template engine, the file
system and standard output.  Each such call is recorded as an `Event` on a trace, and its
result is read from an `Env`, so the embedded functions are pure functions of the
environment and the trace so far. -/

/-- A Go `error` value, by its message; the nil error is `none : Option GoError`. -/
abbrev GoError := String

/-- The part of `SourceLineAnalysis` the embedded code reads. -/
structure SourceLineAnalysis where
  IsActive : Bool
  IsCovered : Bool
deriving DecidableEq, Repr

/-- The part of `SourceFileAnalysis` the embedded code reads. -/
structure SourceFileAnalysis where
  Path : String
  Lines : List SourceLineAnalysis
deriving DecidableEq, Repr

/-- The result of `AnalyzeSourceCoverage`: the analysed files. -/
structure SourceAnalysis where
  Files : List SourceFileAnalysis
deriving DecidableEq, Repr

/-- The `CoverageMaps` handed to the analysis; the embedded code only passes it on. -/
structure CoverageMaps where
  tag : Nat
deriving DecidableEq, Repr

/-- The loop `for lineIndex, line := range sourceFileAnalysis.Lines` of `lastActiveIndex`:
the lines still to visit, the index of the first of them, and the current `lastIndex`. -/
def lastActiveIndexLoop : List SourceLineAnalysis → Nat → Nat → Nat
  | [], _, lastIndex => lastIndex
  | line :: rest, lineIndex, lastIndex =>
    lastActiveIndexLoop rest (lineIndex + 1) (if line.IsActive then lineIndex else lastIndex)

/-- The template helper `lastActiveIndex`: `lastIndex := 0`, then the loop over all lines. -/
def lastActiveIndex (sourceFileAnalysis : SourceFileAnalysis) : Nat :=
  lastActiveIndexLoop sourceFileAnalysis.Lines 0 0

/-- A call the report generation makes to the outside world. -/
inductive Event where
  /-- The call `template.New(name).Funcs(functionMap).Parse(...)`. -/
  | parseTemplate (name : String)
  /-- The call `fmt.Println("Report path:", outputPath)`. -/
  | println (outputPath : String)
  /-- The call `utils.MakeDirectory(parentDirectory)`. -/
  | makeDirectory (dir : String)
  /-- The call `os.Create(outputPath)`. -/
  | create (path : String)
  /-- The call `file.Close()` on the nil file a failed `os.Create` returns. -/
  | closeNil
  /-- The call `tmpl.Execute(file, sourceAnalysis)` for the template `name`, writing to `path`. -/
  | execute (name : String) (path : String)
  /-- The call `file.Close()` on the file created at `path`. -/
  | close (path : String)
deriving DecidableEq, Repr

/-- What the outside world answers.  The file-system answers may depend on everything that
happened before, so they take the trace of earlier events. -/
structure Env where
  /-- The function `AnalyzeSourceCoverage(compilations, coverageMaps)`. -/
  analyze : List Compilation → CoverageMaps → Except GoError SourceAnalysis
  /-- The error of parsing the embedded `report_template.gohtml`, if any. -/
  parseHTML : Option GoError
  /-- The error of parsing the embedded `report_template.gojson`, if any. -/
  parseJSON : Option GoError
  /-- The function `filepath.Join`. -/
  join : String → String → String
  /-- The function `filepath.Dir`. -/
  dir : String → String
  /-- The error of `utils.MakeDirectory`, if any. -/
  makeDirectory : List Event → String → Option GoError
  /-- The error of `os.Create`, if any. -/
  create : List Event → String → Option GoError
  /-- The error of `tmpl.Execute` for the named template writing to the path, if any. -/
  execute : List Event → String → String → SourceAnalysis → Option GoError
  /-- The error of `file.Close`, if any. -/
  close : List Event → String → Option GoError

/-- How a call ends: it returns its `error` result, or the goroutine panics. -/
inductive Outcome where
  | returned (err : Option GoError)
  | panicked
deriving DecidableEq, Repr

/-- The message `fmt.Errorf` builds when the report file cannot be created. -/
def openFailed (err : GoError) : GoError :=
  "could not export report, failed to open file for writing: " ++ err

/-- The message `fmt.Errorf` builds when the HTML template does not parse. -/
def parseFailed (err : GoError) : GoError :=
  "could not export report, failed to parse report template: " ++ err

/-- The function `exportCoverageReportJSON`, from the trace `t`; the result is the outcome and
the trace extended with the calls made.  The error of `Parse` is assigned to `err` and then
overwritten by the result of `MakeDirectory` without being looked at; after a failed parse
`tmpl` is nil, and `Execute` on a nil template dereferences it and panics. -/
def exportCoverageReportJSON (env : Env) (sourceAnalysis : SourceAnalysis)
    (outputPath : String) (t : List Event) : Outcome × List Event :=
  -- Parse our JSON template
  let tmplOk : Bool := env.parseJSON.isNone
  let t := t ++ [Event.parseTemplate "coverage_report.json"]
  -- Add the report file to the path
  let outputPath := env.join outputPath "coverage_report.json"
  let t := t ++ [Event.println outputPath]
  -- If the parent directory doesn't exist, create it.
  let parentDirectory := env.dir outputPath
  let err := env.makeDirectory t parentDirectory
  let t := t ++ [Event.makeDirectory parentDirectory]
  match err with
  | some e => (Outcome.returned (some e), t)
  | none =>
    -- Create our report file
    let err := env.create t outputPath
    let t := t ++ [Event.create outputPath]
    match err with
    | some e => (Outcome.returned (some (openFailed e)), t ++ [Event.closeNil])
    | none =>
      -- Execute the template and write it back to file.
      if tmplOk then
        let err := env.execute t "coverage_report.json" outputPath sourceAnalysis
        let t := t ++ [Event.execute "coverage_report.json" outputPath]
        let fileCloseErr := env.close t outputPath
        let t := t ++ [Event.close outputPath]
        let err := if err = none then fileCloseErr else err
        (Outcome.returned err, t)
      else
        (Outcome.panicked, t)

/-- The function `exportCoverageReport` (the HTML report), from the trace `t`. -/
def exportCoverageReport (env : Env) (sourceAnalysis : SourceAnalysis)
    (outputPath : String) (t : List Event) : Outcome × List Event :=
  -- Parse our HTML template
  let err := env.parseHTML
  let t := t ++ [Event.parseTemplate "coverage_report.html"]
  match err with
  | some e => (Outcome.returned (some (parseFailed e)), t)
  | none =>
    -- Add the report file to the path
    let outputPath := env.join outputPath "coverage_report.html"
    -- If the parent directory doesn't exist, create it.
    let parentDirectory := env.dir outputPath
    let err := env.makeDirectory t parentDirectory
    let t := t ++ [Event.makeDirectory parentDirectory]
    match err with
    | some e => (Outcome.returned (some e), t)
    | none =>
      -- Create our report file
      let err := env.create t outputPath
      let t := t ++ [Event.create outputPath]
      match err with
      | some e => (Outcome.returned (some (openFailed e)), t ++ [Event.closeNil])
      | none =>
        -- Execute the template and write it back to file.
        let err := env.execute t "coverage_report.html" outputPath sourceAnalysis
        let t := t ++ [Event.execute "coverage_report.html" outputPath]
        let fileCloseErr := env.close t outputPath
        let t := t ++ [Event.close outputPath]
        let err := if err = none then fileCloseErr else err
        (Outcome.returned err, t)

/-- The function `GenerateReport`, from the trace `t`.  With a non-empty report path `err` is
assigned the result of the HTML export and then the result of the JSON export; the value
returned is the last one assigned. -/
def GenerateReport (env : Env) (compilations : List Compilation) (coverageMaps : CoverageMaps)
    (reportPath : String) (t : List Event) : Outcome × List Event :=
  -- Perform source analysis.
  match env.analyze compilations coverageMaps with
  | Except.error err => (Outcome.returned (some err), t)
  | Except.ok sourceAnalysis =>
    -- Finally, export the report data we analyzed.
    if reportPath ≠ "" then
      match exportCoverageReport env sourceAnalysis reportPath t with
      | (Outcome.panicked, t) => (Outcome.panicked, t)
      | (Outcome.returned _, t) =>
        match exportCoverageReportJSON env sourceAnalysis reportPath t with
        | (Outcome.panicked, t) => (Outcome.panicked, t)
        | (Outcome.returned err, t) => (Outcome.returned err, t)
    else
      (Outcome.returned none, t)

/-! ### The percentage helpers and float64

`percentageStr` and `percentageInt` compute in `float64`.  `F64` is the set of IEEE-754
binary64 values; conversion from `int`, division and multiplication round the exact result to
the nearest value, ties to even (53-bit significand, exponents down to the subnormal range,
overflow to infinity). -/

/-- A `float64`: `fin neg m e` is the number `(-1)^neg * m * 2^e` (also the signed zeros, with
`m = 0`), `inf neg` an infinity, `nan` a NaN.  A number may have several representations;
only its value and sign are ever read. -/
inductive F64 where
  | fin (neg : Bool) (m : Nat) (e : Int)
  | inf (neg : Bool)
  | nan
deriving DecidableEq, Repr

/-- The integer nearest to `N / D`, ties to the even one (`0 < D`). -/
def rne (N D : Nat) : Nat :=
  let q := N / D
  let r := N % D
  if 2 * r < D then q else if D < 2 * r then q + 1 else if q % 2 = 0 then q else q + 1

/-- The number of halvings that bring `n` below 2, at most `fuel` of them. -/
def log2Fuel : Nat → Nat → Nat
  | 0, _ => 0
  | fuel + 1, n => if 2 ≤ n then log2Fuel fuel (n / 2) + 1 else 0

/-- The floor of the binary logarithm of `n` (`0 < n`). -/
def ilog2 (n : Nat) : Nat := log2Fuel n n

/-- The floor of the binary logarithm of `n / d` (`0 < n`, `0 < d`). -/
def ilog2Ratio (n d : Nat) : Int :=
  let l : Int := (ilog2 n : Int) - (ilog2 d : Int)
  if d * 2 ^ l.toNat ≤ n * 2 ^ (-l).toNat then l else l - 1

/-- The `float64` nearest to `(-1)^neg * n / d` (`0 < d`), ties to even: the exponent `e` of
the last place is chosen so that the significand `n / d / 2^e` lies in `[2^52, 2^53)`, and is
no less than `-1074`; a result of `2^1024` or more is an infinity. -/
def F64.round (neg : Bool) (n d : Nat) : F64 :=
  if n = 0 then .fin neg 0 0 else
    let e : Int := max (ilog2Ratio n d - 52) (-1074)
    let m := rne (n * 2 ^ (-e).toNat) (d * 2 ^ e.toNat)
    if 971 < e ∨ (e = 971 ∧ 2 ^ 53 ≤ m) then .inf neg else .fin neg m e

/-- The conversion `float64(x)` of an `int`. -/
def F64.ofInt (x : Int) : F64 := F64.round (decide (x < 0)) x.natAbs 1

/-- The `float64` division `a / b`. -/
def F64.div : F64 → F64 → F64
  | .nan, _ => .nan
  | _, .nan => .nan
  | .inf _, .inf _ => .nan
  | .inf s, .fin t _ _ => .inf (xor s t)
  | .fin s _ _, .inf t => .fin (xor s t) 0 0
  | .fin s ma ea, .fin t mb eb =>
    if mb = 0 then (if ma = 0 then .nan else .inf (xor s t))
    else F64.round (xor s t) (ma * 2 ^ ea.toNat * 2 ^ (-eb).toNat)
      (mb * 2 ^ eb.toNat * 2 ^ (-ea).toNat)

/-- The `float64` multiplication `a * b`. -/
def F64.mul : F64 → F64 → F64
  | .nan, _ => .nan
  | _, .nan => .nan
  | .inf s, .inf t => .inf (xor s t)
  | .inf s, .fin t m _ => if m = 0 then .nan else .inf (xor s t)
  | .fin s m _, .inf t => if m = 0 then .nan else .inf (xor s t)
  | .fin s ma ea, .fin t mb eb =>
    F64.round (xor s t) (ma * mb * 2 ^ (ea + eb).toNat) (2 ^ (-(ea + eb)).toNat)

/-- The function `math.Round`: the nearest integer, halves away from zero; zeros, infinities
and NaN are returned as they are. -/
def F64.Round : F64 → F64
  | .fin neg m e =>
    if 0 ≤ e then .fin neg m e
    else .fin neg ((2 * m + 2 ^ (-e).toNat) / (2 * 2 ^ (-e).toNat)) 0
  | x => x

/-- The conversion `int(f)`: the fraction is cut off.  When the value does not fit in 64 bits,
or is an infinity or NaN, Go leaves the result to the implementation; the value here is the
one amd64 produces, `-2^63`. -/
def F64.toInt : F64 → Int
  | .fin neg m e =>
    let t : Nat := if 0 ≤ e then m * 2 ^ e.toNat else m / 2 ^ (-e).toNat
    let v : Int := if neg then -(t : Int) else (t : Int)
    if -2 ^ 63 ≤ v ∧ v < 2 ^ 63 then v else -2 ^ 63
  | _ => -2 ^ 63

/-- The exact rational value of a finite `float64` (0 for infinities and NaN). -/
def F64.toRat : F64 → ℚ
  | .fin neg m e => (if neg then -1 else 1) * (m : ℚ) * (2 : ℚ) ^ e
  | _ => 0

/-- The template helper `percentageInt`, with the division of `float64` as a parameter. -/
def percentageIntWith (fdiv : F64 → F64 → F64) (x y : Int) : Int :=
  if y = 0 then 100
  else F64.toInt (F64.Round (F64.mul (fdiv (F64.ofInt x) (F64.ofInt y)) (F64.ofInt 100)))

/-- The template helper `percentageInt`. -/
def percentageInt (x y : Int) : Int := percentageIntWith F64.div x y

/-- The string `s` with zeros put in front up to the length `n`. -/
def leftPad (n : Nat) (s : String) : String :=
  String.mk (List.replicate (n - s.length) '0') ++ s

/-- The text `fmt` prints for a `float64` under the verb `%.<prec>f`: the exact value rounded
to `prec` decimals, ties to even, the sign of a negative number or zero in front. -/
def formatFixed (prec : Nat) : F64 → String
  | .nan => "NaN"
  | .inf neg => if neg then "-Inf" else "+Inf"
  | .fin neg m e =>
    let n := rne (m * 2 ^ e.toNat * 10 ^ prec) (2 ^ (-e).toNat)
    (if neg then "-" else "") ++ toString (n / 10 ^ prec) ++
      (if prec = 0 then "" else "." ++ leftPad prec (toString (n % 10 ^ prec)))

/-- The call `fmt.Sprintf(formatStr, v)` for `formatStr := "%." + strconv.Itoa(decimals) + "f"`.
For `0 ≤ decimals ≤ 10000009` this is the fixed-point print of `v`.  `fmt` reads the precision
digit by digit and gives up once the digits read so far exceed `10^6`, that is when
`decimals / 10 > 1000000`: the verb is lost and the argument is reported as extra, printed
under `%v` (the parameter `verbV`).  For a negative `decimals` the minus sign is read as the
verb and `fmt` prints a bad-verb diagnostic (the parameter `badVerb`). -/
def sprintfPrecF (badVerb : Int → F64 → String) (verbV : F64 → String) (decimals : Int)
    (v : F64) : String :=
  if decimals < 0 then badVerb decimals v
  else if 1000000 < decimals / 10 then "%!(NOVERB)%!(EXTRA float64=" ++ verbV v ++ ")"
  else formatFixed decimals.toNat v

/-- The template helper `percentageStr`. -/
def percentageStr (badVerb : Int → F64 → String) (verbV : F64 → String)
    (x y decimals : Int) : String :=
  -- If no lines are active and none are covered, show 100% coverage
  if x = 0 ∧ y = 0 then sprintfPrecF badVerb verbV decimals (F64.ofInt 100)
  else sprintfPrecF badVerb verbV decimals
    (F64.mul (F64.div (F64.ofInt x) (F64.ofInt y)) (F64.ofInt 100))

/-- The template helper `relativePath`: `getwd` is the result of `os.Getwd()`, `rel` the
function `filepath.Rel`. -/
def relativePath (getwd : Except GoError String)
    (rel : String → String → Except GoError String) (path : String) : String :=
  match getwd with
  | Except.error _ => path
  | Except.ok cwd =>
    match rel cwd path with
    | Except.error _ => path
    | Except.ok relativePath => relativePath

/-- The helper `relativePath` of the JSON function map: the same code as in the HTML map. -/
def relativePathJSON (getwd : Except GoError String)
    (rel : String → String → Except GoError String) (path : String) : String :=
  match getwd with
  | Except.error _ => path
  | Except.ok cwd =>
    match rel cwd path with
    | Except.error _ => path
    | Except.ok relativePath => relativePath

/-- The decimal numeral of `(-1)^neg * n / 10^prec` with exactly `prec` fractional digits: the
integer part, and for `prec > 0` a point and the `prec` digits of the fraction. -/
def renderFixed (neg : Bool) (prec n : Nat) : String :=
  (if neg then "-" else "") ++ toString (n / 10 ^ prec) ++
    (if prec = 0 then "" else "." ++ leftPad prec (toString (n % 10 ^ prec)))

/-- The percentage string as the specification words it: the exact rational
`covered / total * 100` rounded to `decimals` fractional digits (to the nearest, ties to even)
and rendered with exactly that many digits (`total ≠ 0`). -/
def specPercentageStr (covered total : Int) (decimals : Nat) : String :=
  renderFixed (decide (covered * total < 0)) decimals
    (rne (covered.natAbs * 100 * 10 ^ decimals) total.natAbs)

/-! ## Concrete inputs used in the examples -/

/-- A concrete match predicate: both bytecodes are equal to the artifact's. -/
def exactMatch (cc : CompiledContract) (initBytecode runtimeBytecode : List Nat) : Bool :=
  cc.InitBytecode == initBytecode && cc.RuntimeBytecode == runtimeBytecode

/-- An artifact with no methods and the given bytecode (init and runtime alike). -/
def artifactOf (code : List Nat) : CompiledContract :=
  { Abi := { Methods := [] }, InitBytecode := code, RuntimeBytecode := code }

/-- Example contract `A`, bytecode `[1, 2]`. -/
def contractA : Contract := NewContract "A" "a.sol" (artifactOf [1, 2]) ⟨0⟩

/-- Example contract `B`, the same bytecode `[1, 2]` as `A`. -/
def contractB : Contract := NewContract "B" "b.sol" (artifactOf [1, 2]) ⟨0⟩

/-- An artifact with three ABI methods. -/
def artifact3 : CompiledContract :=
  { Abi := { Methods := [⟨"f", "f()"⟩, ⟨"g", "g(uint256)"⟩, ⟨"h", "h(address)"⟩] },
    InitBytecode := [1], RuntimeBytecode := [2] }

/-- A world in which the analysis succeeds and every call succeeds, except that
`out/coverage_report.html` cannot be created (a directory of that name is in the way). -/
def envHtmlCreateFails : Env :=
  { analyze := fun _ _ => Except.ok { Files := [] }
    parseHTML := none
    parseJSON := none
    join := fun a b => a ++ "/" ++ b
    dir := fun _ => "out"
    makeDirectory := fun _ _ => none
    create := fun _ p =>
      if p = "out/coverage_report.html" then some "open out/coverage_report.html: is a directory"
      else none
    execute := fun _ _ _ _ => none
    close := fun _ _ => none }

/-- A world in which every call succeeds. -/
def envAllGood : Env :=
  { analyze := fun _ _ => Except.ok { Files := [] }
    parseHTML := none
    parseJSON := none
    join := fun a b => a ++ "/" ++ b
    dir := fun _ => "out"
    makeDirectory := fun _ _ => none
    create := fun _ _ => none
    execute := fun _ _ _ _ => none
    close := fun _ _ => none }

/-- A line record with the given activity. -/
def lineOf (active : Bool) : SourceLineAnalysis := { IsActive := active, IsCovered := false }

/-- A bad-verb diagnostic for the examples (never consulted for `decimals ≥ 0`). -/
def noDiag : Int → F64 → String := fun _ _ => ""

/-- A `%v` print for the examples (never consulted for `decimals ≤ 10000009`). -/
def noVerbV : F64 → String := fun _ => ""

/-- A world in which the analysis fails and every other call would succeed. -/
def envAnalysisFails : Env :=
  { analyze := fun _ _ => Except.error "source analysis failed"
    parseHTML := none
    parseJSON := none
    join := fun a b => a ++ "/" ++ b
    dir := fun _ => "out"
    makeDirectory := fun _ _ => none
    create := fun _ _ => none
    execute := fun _ _ _ _ => none
    close := fun _ _ => none }

/-- A world in which neither embedded template parses and every other call succeeds. -/
def envTemplatesBroken : Env :=
  { analyze := fun _ _ => Except.ok { Files := [] }
    parseHTML := some "template: coverage_report.html:1: unexpected EOF"
    parseJSON := some "template: coverage_report.json:1: unexpected EOF"
    join := fun a b => a ++ "/" ++ b
    dir := fun _ => "out"
    makeDirectory := fun _ _ => none
    create := fun _ _ => none
    execute := fun _ _ _ _ => none
    close := fun _ _ => none }

/-- A contract with the three-method ABI, built by `NewContract`. -/
def contractT : Contract := NewContract "T" "t.sol" artifact3 ⟨7⟩

/-! ## Theorems -/

theorem matchLoop_some_iff (isMatch : CompiledContract → List Nat → List Nat → Bool)
    (c : Contracts) (ib rb : List Nat) (r : Contract) :
    ∀ (fuel i : Nat), c.length ≤ fuel + i →
      (matchLoop isMatch c ib rb fuel i = some r ↔
        ∃ k, ∃ h : k < c.length, i ≤ k ∧ c.get ⟨k, h⟩ = r ∧
          isMatch (c.get ⟨k, h⟩).CompiledContract ib rb = true ∧
          ∀ j, ∀ hj : j < c.length, i ≤ j → j < k →
            isMatch (c.get ⟨j, hj⟩).CompiledContract ib rb = false) := by
  intro fuel
  induction fuel with
  | zero =>
    intro i hi
    simp only [matchLoop]
    constructor
    · intro h; cases h
    · rintro ⟨k, hk, hik, -⟩; omega
  | succ n ih =>
    intro i hi
    simp only [matchLoop]
    by_cases hlt : i < c.length
    · rw [dif_pos hlt]
      by_cases hm : isMatch (c.get ⟨i, hlt⟩).CompiledContract ib rb = true
      · rw [if_pos hm]
        constructor
        · intro h
          refine ⟨i, hlt, le_refl _, Option.some.inj h, hm, ?_⟩
          intro j hj h1 h2; omega
        · rintro ⟨k, hk, hik, hr, hkm, hmin⟩
          rcases Nat.eq_or_lt_of_le hik with heq | hlt2
          · subst heq; rw [hr]
          · have := hmin i hlt (le_refl _) hlt2
            rw [hm] at this; cases this
      · rw [if_neg hm]
        have hm2 : isMatch (c.get ⟨i, hlt⟩).CompiledContract ib rb = false := by
          cases hb : isMatch (c.get ⟨i, hlt⟩).CompiledContract ib rb
          · rfl
          · exact absurd hb hm
        rw [ih (i + 1) (by omega)]
        constructor
        · rintro ⟨k, hk, hik, hr, hkm, hmin⟩
          refine ⟨k, hk, by omega, hr, hkm, ?_⟩
          intro j hj h1 h2
          rcases Nat.eq_or_lt_of_le h1 with heq | hlt2
          · subst heq; exact hm2
          · exact hmin j hj hlt2 h2
        · rintro ⟨k, hk, hik, hr, hkm, hmin⟩
          rcases Nat.eq_or_lt_of_le hik with heq | hlt2
          · subst heq; rw [hm2] at hkm; cases hkm
          · exact ⟨k, hk, hlt2, hr, hkm, fun j hj h1 h2 => hmin j hj (by omega) h2⟩
    · rw [dif_neg hlt]
      constructor
      · intro h; cases h
      · rintro ⟨k, hk, hik, -⟩; omega

theorem matchLoop_none_iff (isMatch : CompiledContract → List Nat → List Nat → Bool)
    (c : Contracts) (ib rb : List Nat) :
    ∀ (fuel i : Nat), c.length ≤ fuel + i →
      (matchLoop isMatch c ib rb fuel i = none ↔
        ∀ k, ∀ h : k < c.length, i ≤ k →
          isMatch (c.get ⟨k, h⟩).CompiledContract ib rb = false) := by
  intro fuel
  induction fuel with
  | zero =>
    intro i hi
    simp only [matchLoop, true_iff]
    intro k hk hik; omega
  | succ n ih =>
    intro i hi
    simp only [matchLoop]
    by_cases hlt : i < c.length
    · rw [dif_pos hlt]
      cases hb : isMatch (c.get ⟨i, hlt⟩).CompiledContract ib rb
      · simp only [Bool.false_eq_true, if_false]
        rw [ih (i + 1) (by omega)]
        constructor
        · intro h k hk hik
          rcases Nat.eq_or_lt_of_le hik with heq | hlt2
          · subst heq; exact hb
          · exact h k hk hlt2
        · intro h k hk hik
          exact h k hk (by omega)
      · simp only [if_true]
        constructor
        · intro h; cases h
        · intro h
          have := h i hlt (le_refl _)
          rw [hb] at this; cases this
    · rw [dif_neg hlt]
      simp only [true_iff]
      intro k hk hik; omega

/-- C1: `MatchBytecode` returns a contract `r` exactly when `r` is the contract at the smallest
index whose artifact's `IsMatch` accepts the bytecode pair (`IsMatch` holds there and fails at
every smaller index); for a registry `[A, B]` where both match, the result is `A`. -/
theorem MatchBytecode_returns_first_match
    (isMatch : CompiledContract → List Nat → List Nat → Bool)
    (c : Contracts) (initBytecode runtimeBytecode : List Nat) :
    (∀ r, c.MatchBytecode isMatch initBytecode runtimeBytecode = some r ↔
      ∃ i, ∃ h : i < c.length, c.get ⟨i, h⟩ = r ∧
        isMatch (c.get ⟨i, h⟩).CompiledContract initBytecode runtimeBytecode = true ∧
        ∀ j, ∀ hj : j < c.length, j < i →
          isMatch (c.get ⟨j, hj⟩).CompiledContract initBytecode runtimeBytecode = false) ∧
    (∀ A B : Contract,
      isMatch A.CompiledContract initBytecode runtimeBytecode = true →
      isMatch B.CompiledContract initBytecode runtimeBytecode = true →
      Contracts.MatchBytecode isMatch [A, B] initBytecode runtimeBytecode = some A) := by
  constructor
  · intro r
    unfold Contracts.MatchBytecode
    rw [matchLoop_some_iff isMatch c initBytecode runtimeBytecode r c.length 0 (by omega)]
    constructor
    · rintro ⟨k, hk, -, hr, hm, hmin⟩
      exact ⟨k, hk, hr, hm, fun j hj hjk => hmin j hj (Nat.zero_le _) hjk⟩
    · rintro ⟨k, hk, hr, hm, hmin⟩
      exact ⟨k, hk, Nat.zero_le _, hr, hm, fun j hj _ hjk => hmin j hj hjk⟩
  · intro A B hA _
    simp [Contracts.MatchBytecode, matchLoop, hA]

/-- Witness for C1: the registry `[A, B]` with equal bytecode, matched on that bytecode. -/
theorem MatchBytecode_returns_first_match_witness :
    exactMatch contractA.CompiledContract [1, 2] [1, 2] = true ∧
    exactMatch contractB.CompiledContract [1, 2] [1, 2] = true ∧
    Contracts.MatchBytecode exactMatch [contractA, contractB] [1, 2] [1, 2] = some contractA :=
  ⟨by decide, by decide,
    (MatchBytecode_returns_first_match exactMatch [contractA, contractB] [1, 2] [1, 2]).2
      contractA contractB (by decide) (by decide)⟩

/-- C2: `MatchBytecode` returns nil exactly when no contract of the registry has an artifact
whose `IsMatch` accepts the pair; it returns nil on the empty registry; a returned contract
always matches. -/
theorem MatchBytecode_nil_iff_no_match
    (isMatch : CompiledContract → List Nat → List Nat → Bool)
    (c : Contracts) (initBytecode runtimeBytecode : List Nat) :
    (c.MatchBytecode isMatch initBytecode runtimeBytecode = none ↔
      ∀ x, x ∈ c → isMatch x.CompiledContract initBytecode runtimeBytecode = false) ∧
    Contracts.MatchBytecode isMatch [] initBytecode runtimeBytecode = none ∧
    (∀ r, c.MatchBytecode isMatch initBytecode runtimeBytecode = some r →
      r ∈ c ∧ isMatch r.CompiledContract initBytecode runtimeBytecode = true) := by
  refine ⟨?_, rfl, ?_⟩
  · unfold Contracts.MatchBytecode
    rw [matchLoop_none_iff isMatch c initBytecode runtimeBytecode c.length 0 (by omega)]
    constructor
    · intro h x hx
      obtain ⟨n, hn⟩ := List.get_of_mem hx
      rw [← hn]
      exact h n.1 n.2 (Nat.zero_le _)
    · intro h k hk _
      exact h _ (List.get_mem c k hk)
  · intro r hr
    unfold Contracts.MatchBytecode at hr
    rw [matchLoop_some_iff isMatch c initBytecode runtimeBytecode r c.length 0 (by omega)] at hr
    obtain ⟨k, hk, -, hkr, hm, -⟩ := hr
    rw [← hkr]
    exact ⟨List.get_mem c k hk, hm⟩

/-- Witness for C2: a registry none of whose contracts matches `[9]`. -/
theorem MatchBytecode_nil_iff_no_match_witness :
    Contracts.MatchBytecode exactMatch [contractA, contractB] [9] [9] = none :=
  (MatchBytecode_nil_iff_no_match exactMatch [contractA, contractB] [9] [9]).1.2
    (by
      intro x hx
      simp only [List.mem_cons, List.mem_singleton, List.not_mem_nil, or_false] at hx
      rcases hx with rfl | rfl <;> decide)

theorem foldl_set_true (ms : List Method) (m0 : MethodMap) (s : String) :
    (ms.foldl (fun m method => MethodMap.set m method.Sig true) m0) s =
      if s ∈ ms.map Method.Sig then some true else m0 s := by
  induction ms generalizing m0 with
  | nil => simp
  | cons x xs ih =>
    rw [List.foldl_cons, ih]
    by_cases h1 : s ∈ xs.map Method.Sig
    · simp [h1]
    · by_cases h2 : s = x.Sig
      · simp [h1, h2, MethodMap.set]
      · simp [h1, h2, MethodMap.set]

/-- C3: the contract `NewContract` returns maps every signature of an ABI method to `true`
and holds no other signature (the key set is exactly the ABI's signatures, every flag is
`true`), and its accessors return the four arguments. -/
theorem NewContract_all_methods_enabled (name sourcePath : String)
    (compiledContract : CompiledContract) (compilation : Compilation) :
    (∀ s, s ∈ compiledContract.Abi.Methods.map Method.Sig →
      (NewContract name sourcePath compiledContract compilation).CallableMethods s = some true) ∧
    (∀ s, s ∉ compiledContract.Abi.Methods.map Method.Sig →
      (NewContract name sourcePath compiledContract compilation).CallableMethods s = none) ∧
    (NewContract name sourcePath compiledContract compilation).Name = name ∧
    (NewContract name sourcePath compiledContract compilation).SourcePath = sourcePath ∧
    (NewContract name sourcePath compiledContract compilation).CompiledContract
      = compiledContract ∧
    (NewContract name sourcePath compiledContract compilation).Compilation = compilation := by
  refine ⟨?_, ?_, rfl, rfl, rfl, rfl⟩
  · intro s h
    simp only [NewContract, Contract.CallableMethods, foldl_set_true, MethodMap.empty]
    rw [if_pos h]
  · intro s h
    simp only [NewContract, Contract.CallableMethods, foldl_set_true, MethodMap.empty]
    rw [if_neg h]

/-- Witness for C3: an ABI of three methods; each is enabled, an unknown signature is absent. -/
theorem NewContract_all_methods_enabled_witness :
    (NewContract "T" "t.sol" artifact3 ⟨7⟩).CallableMethods "f()" = some true ∧
    (NewContract "T" "t.sol" artifact3 ⟨7⟩).CallableMethods "g(uint256)" = some true ∧
    (NewContract "T" "t.sol" artifact3 ⟨7⟩).CallableMethods "h(address)" = some true ∧
    (NewContract "T" "t.sol" artifact3 ⟨7⟩).CallableMethods "k()" = none :=
  ⟨(NewContract_all_methods_enabled "T" "t.sol" artifact3 ⟨7⟩).1 "f()" (by decide),
   (NewContract_all_methods_enabled "T" "t.sol" artifact3 ⟨7⟩).1 "g(uint256)" (by decide),
   (NewContract_all_methods_enabled "T" "t.sol" artifact3 ⟨7⟩).1 "h(address)" (by decide),
   (NewContract_all_methods_enabled "T" "t.sol" artifact3 ⟨7⟩).2.1 "k()" (by decide)⟩

/-- C4: after `BlackListFunction(s)` the map sends `s` to `false`, after `WhiteListFunction(s)`
to `true`, whatever the map held for `s` before (nothing included); so blacklisting then
whitelisting `s` leaves it `true`. -/
theorem WhiteList_BlackList_set_flag (c : Contract) (s : String) :
    (c.BlackListFunction s).CallableMethods s = some false ∧
    (c.WhiteListFunction s).CallableMethods s = some true ∧
    ((c.BlackListFunction s).WhiteListFunction s).CallableMethods s = some true := by
  simp [Contract.BlackListFunction, Contract.WhiteListFunction, Contract.CallableMethods,
    MethodMap.set]

theorem lastActiveIndexLoop_none (ls : List SourceLineAnalysis) :
    ∀ (k last : Nat), (∀ l, l ∈ ls → l.IsActive = false) →
      lastActiveIndexLoop ls k last = last := by
  induction ls with
  | nil => intro k last _; rfl
  | cons line rest ih =>
    intro k last h
    have h0 : line.IsActive = false := h line (List.mem_cons_self _ _)
    simp only [lastActiveIndexLoop, h0, Bool.false_eq_true, if_false]
    exact ih (k + 1) last (fun l hl => h l (List.mem_cons_of_mem _ hl))

theorem lastActiveIndexLoop_some (ls : List SourceLineAnalysis) :
    ∀ (k last : Nat), (∃ l, l ∈ ls ∧ l.IsActive = true) →
      ∃ j, ∃ h : j < ls.length, lastActiveIndexLoop ls k last = k + j ∧
        (ls.get ⟨j, h⟩).IsActive = true ∧
        ∀ i, ∀ hi : i < ls.length, (ls.get ⟨i, hi⟩).IsActive = true → i ≤ j := by
  induction ls with
  | nil => intro k last h; obtain ⟨l, hl, -⟩ := h; cases hl
  | cons line rest ih =>
    intro k last h
    by_cases hrest : ∃ l, l ∈ rest ∧ l.IsActive = true
    · obtain ⟨j, hj, hres, hact, hmax⟩ :=
        ih (k + 1) (if line.IsActive then k else last) hrest
      refine ⟨j + 1, by simp only [List.length_cons]; omega, ?_, ?_, ?_⟩
      · simp only [lastActiveIndexLoop]; rw [hres]; omega
      · simpa using hact
      · intro i hi hia
        cases i with
        | zero => omega
        | succ i =>
          have hi2 : i < rest.length := by simpa using hi
          have := hmax i hi2 (by simpa using hia)
          omega
    · have hnone : ∀ l, l ∈ rest → l.IsActive = false := by
        intro l hl
        cases hb : l.IsActive
        · rfl
        · exact absurd ⟨l, hl, hb⟩ hrest
      have hline : line.IsActive = true := by
        obtain ⟨l, hl, hla⟩ := h
        rcases List.mem_cons.mp hl with rfl | hl2
        · exact hla
        · rw [hnone l hl2] at hla; cases hla
      refine ⟨0, by simp, ?_, by simpa using hline, ?_⟩
      · simp only [lastActiveIndexLoop, hline, if_true]
        rw [lastActiveIndexLoop_none rest (k + 1) k hnone]; rfl
      · intro i hi hia
        cases i with
        | zero => exact le_refl _
        | succ i =>
          have hi2 : i < rest.length := by simpa using hi
          have hmem : rest.get ⟨i, hi2⟩ ∈ rest := List.get_mem rest i hi2
          have : (rest.get ⟨i, hi2⟩).IsActive = true := by simpa using hia
          rw [hnone _ hmem] at this; cases this

theorem exportCoverageReport_trace (env : Env) (sa : SourceAnalysis) (p : String)
    (t : List Event) :
    ∃ rest, (exportCoverageReport env sa p t).2
      = t ++ Event.parseTemplate "coverage_report.html" :: rest := by
  unfold exportCoverageReport
  cases env.parseHTML with
  | some e => exact ⟨[], rfl⟩
  | none =>
    simp only
    split
    · exact ⟨_, by simp; rfl⟩
    · split
      · exact ⟨_, by simp; rfl⟩
      · exact ⟨_, by simp; rfl⟩

theorem exportCoverageReportJSON_trace (env : Env) (sa : SourceAnalysis) (p : String)
    (t : List Event) :
    ∃ rest, (exportCoverageReportJSON env sa p t).2
      = t ++ Event.parseTemplate "coverage_report.json" :: rest := by
  unfold exportCoverageReportJSON
  simp only
  split
  · exact ⟨_, by simp; rfl⟩
  · split
    · exact ⟨_, by simp; rfl⟩
    · split
      · exact ⟨_, by simp; rfl⟩
      · exact ⟨_, by simp; rfl⟩

/-- C5 (the code at the failing input): the HTML export fails to create its file, the JSON
export succeeds, and `GenerateReport` returns the nil error; the HTML failure is lost. -/
theorem GenerateReport_masks_html_failure :
    (exportCoverageReport envHtmlCreateFails { Files := [] } "out" []).1
      = Outcome.returned (some (openFailed "open out/coverage_report.html: is a directory")) ∧
    (exportCoverageReportJSON envHtmlCreateFails { Files := [] } "out"
        (exportCoverageReport envHtmlCreateFails { Files := [] } "out" []).2).1
      = Outcome.returned none ∧
    (GenerateReport envHtmlCreateFails [] ⟨0⟩ "out" []).1 = Outcome.returned none := by
  refine ⟨by decide, by decide, by decide⟩

/-- C7: with `total == 0`, `percentageInt` returns exactly 100 for every covered count, and
does so whatever the division of `float64` would do: the division is not reached. -/
theorem percentageInt_zero_total (covered : Int) :
    percentageInt covered 0 = 100 ∧
    ∀ fdiv : F64 → F64 → F64, percentageIntWith fdiv covered 0 = 100 := by
  constructor
  · simp [percentageInt, percentageIntWith]
  · intro fdiv
    simp [percentageIntWith]

/-- C8: when some line is active, `lastActiveIndex` is the index of an active line and no
active line has a greater index; when no line is active (the empty sequence included) it is 0;
on `[active, inactive, active, inactive]` it is 2, on an all-inactive sequence 0. -/
theorem lastActiveIndex_greatest_active (sfa : SourceFileAnalysis) :
    ((∃ l, l ∈ sfa.Lines ∧ l.IsActive = true) →
      ∃ h : lastActiveIndex sfa < sfa.Lines.length,
        (sfa.Lines.get ⟨lastActiveIndex sfa, h⟩).IsActive = true ∧
        ∀ i, ∀ hi : i < sfa.Lines.length,
          (sfa.Lines.get ⟨i, hi⟩).IsActive = true → i ≤ lastActiveIndex sfa) ∧
    ((∀ l, l ∈ sfa.Lines → l.IsActive = false) → lastActiveIndex sfa = 0) ∧
    lastActiveIndex { Path := sfa.Path, Lines := [] } = 0 ∧
    lastActiveIndex
      { Path := sfa.Path, Lines := [lineOf true, lineOf false, lineOf true, lineOf false] } = 2 ∧
    lastActiveIndex
      { Path := sfa.Path, Lines := [lineOf false, lineOf false, lineOf false] } = 0 := by
  refine ⟨?_, ?_, rfl, rfl, rfl⟩
  · intro h
    obtain ⟨j, hj, hres, hact, hmax⟩ := lastActiveIndexLoop_some sfa.Lines 0 0 h
    have heq : lastActiveIndex sfa = j := by
      unfold lastActiveIndex; rw [hres]; omega
    refine ⟨by rw [heq]; exact hj, ?_, ?_⟩
    · simp only [heq]; exact hact
    · intro i hi hia
      rw [heq]; exact hmax i hi hia
  · intro h
    exact lastActiveIndexLoop_none sfa.Lines 0 0 h

/-- Witness for C8: the lines `[inactive, active, active, inactive]`, whose last active index
is 2, and an all-inactive file. -/
theorem lastActiveIndex_greatest_active_witness :
    (∃ h : lastActiveIndex ⟨"a.sol", [lineOf false, lineOf true, lineOf true, lineOf false]⟩ < 4,
      (([lineOf false, lineOf true, lineOf true, lineOf false] : List SourceLineAnalysis).get
        ⟨lastActiveIndex ⟨"a.sol", [lineOf false, lineOf true, lineOf true, lineOf false]⟩,
          h⟩).IsActive = true) ∧
    lastActiveIndex ⟨"b.sol", [lineOf false, lineOf false]⟩ = 0 :=
  ⟨by
      obtain ⟨h, hact, -⟩ := (lastActiveIndex_greatest_active
        ⟨"a.sol", [lineOf false, lineOf true, lineOf true, lineOf false]⟩).1
        ⟨lineOf true, by decide, rfl⟩
      exact ⟨h, hact⟩,
    (lastActiveIndex_greatest_active ⟨"b.sol", [lineOf false, lineOf false]⟩).2.1
      (by decide)⟩

/-- C10: when the analysis succeeds and the report path is empty, `GenerateReport` returns the
nil error and makes no call at all (the trace is unchanged), whereas a call of either exporter
always leaves at least its template-parse event on the trace. -/
theorem GenerateReport_empty_path (env : Env) (compilations : List Compilation)
    (coverageMaps : CoverageMaps) (sourceAnalysis : SourceAnalysis) (t : List Event)
    (h : env.analyze compilations coverageMaps = Except.ok sourceAnalysis) :
    GenerateReport env compilations coverageMaps "" t = (Outcome.returned none, t) ∧
    (∀ p t0, ∃ rest, (exportCoverageReport env sourceAnalysis p t0).2
      = t0 ++ Event.parseTemplate "coverage_report.html" :: rest) ∧
    (∀ p t0, ∃ rest, (exportCoverageReportJSON env sourceAnalysis p t0).2
      = t0 ++ Event.parseTemplate "coverage_report.json" :: rest) := by
  refine ⟨?_, fun p t0 => exportCoverageReport_trace env sourceAnalysis p t0,
    fun p t0 => exportCoverageReportJSON_trace env sourceAnalysis p t0⟩
  unfold GenerateReport
  rw [h]
  simp

/-- Witness for C10: a world where every call would succeed, and the empty report path. -/
theorem GenerateReport_empty_path_witness :
    GenerateReport envAllGood [] ⟨0⟩ "" [] = (Outcome.returned none, []) :=
  (GenerateReport_empty_path envAllGood [] ⟨0⟩ { Files := [] } [] rfl).1

/-! ### Rounding to float64: accuracy -/

theorem rne_close (N D : Nat) (hD : 0 < D) :
    |((rne N D : Nat) : ℚ) - (N : ℚ) / (D : ℚ)| ≤ 1 / 2 := by
  have hDq : (0 : ℚ) < (D : ℚ) := by exact_mod_cast hD
  have hdm : (N : ℚ) = (D : ℚ) * ((N / D : Nat) : ℚ) + ((N % D : Nat) : ℚ) := by
    have := Nat.div_add_mod N D
    exact_mod_cast this.symm
  have hr : ((N % D : Nat) : ℚ) < (D : ℚ) := by
    exact_mod_cast Nat.mod_lt N hD
  have hr0 : (0 : ℚ) ≤ ((N % D : Nat) : ℚ) := by positivity
  have key : ∀ m : ℚ, |m * (D : ℚ) - (N : ℚ)| ≤ (D : ℚ) / 2 →
      |m - (N : ℚ) / (D : ℚ)| ≤ 1 / 2 := by
    intro m hm
    have : m - (N : ℚ) / (D : ℚ) = (m * (D : ℚ) - (N : ℚ)) / (D : ℚ) := by
      field_simp
    rw [this, abs_div, abs_of_pos hDq, div_le_iff₀ hDq]
    linarith
  apply key
  unfold rne
  simp only
  split_ifs with h1 h2 h3
  · have h1q : (2 : ℚ) * ((N % D : Nat) : ℚ) < (D : ℚ) := by exact_mod_cast h1
    rw [abs_le]; constructor <;> nlinarith
  · have h2q : (D : ℚ) < (2 : ℚ) * ((N % D : Nat) : ℚ) := by exact_mod_cast h2
    push_cast
    rw [abs_le]; constructor <;> nlinarith
  · have h1q : (D : ℚ) ≤ (2 : ℚ) * ((N % D : Nat) : ℚ) := by
      have := Nat.le_of_not_lt h1; exact_mod_cast this
    have h2q : (2 : ℚ) * ((N % D : Nat) : ℚ) ≤ (D : ℚ) := by
      have := Nat.le_of_not_lt h2; exact_mod_cast this
    rw [abs_le]; constructor <;> nlinarith
  · have h1q : (D : ℚ) ≤ (2 : ℚ) * ((N % D : Nat) : ℚ) := by
      have := Nat.le_of_not_lt h1; exact_mod_cast this
    have h2q : (2 : ℚ) * ((N % D : Nat) : ℚ) ≤ (D : ℚ) := by
      have := Nat.le_of_not_lt h2; exact_mod_cast this
    push_cast
    rw [abs_le]; constructor <;> nlinarith

theorem log2Fuel_spec : ∀ (fuel n : Nat), 0 < n → n ≤ fuel →
    2 ^ log2Fuel fuel n ≤ n ∧ n < 2 ^ (log2Fuel fuel n + 1) := by
  intro fuel
  induction fuel with
  | zero => intro n h0 h1; omega
  | succ f ih =>
    intro n h0 h1
    unfold log2Fuel
    by_cases h2 : 2 ≤ n
    · rw [if_pos h2]
      have hpos : 0 < n / 2 := Nat.div_pos h2 (by decide)
      have hle : n / 2 ≤ f := by omega
      obtain ⟨ha, hb⟩ := ih (n / 2) hpos hle
      constructor
      · rw [pow_succ]; omega
      · rw [pow_succ]; omega
    · rw [if_neg h2]
      constructor
      · simp; omega
      · simp; omega

theorem ilog2_spec (n : Nat) (h : 0 < n) : 2 ^ ilog2 n ≤ n ∧ n < 2 ^ (ilog2 n + 1) :=
  log2Fuel_spec n n h (le_refl n)

theorem zpow_two_split (l : Int) :
    (2 : ℚ) ^ l = (2 : ℚ) ^ l.toNat / (2 : ℚ) ^ (-l).toNat := by
  rcases le_or_lt 0 l with h | h
  · have h1 : (-l).toNat = 0 := by omega
    have h2 : ((l.toNat : Nat) : Int) = l := Int.toNat_of_nonneg h
    rw [h1, pow_zero, div_one]
    conv_lhs => rw [← h2]
    rw [zpow_natCast]
  · have h1 : l.toNat = 0 := by omega
    have h2 : (((-l).toNat : Nat) : Int) = -l := Int.toNat_of_nonneg (by omega)
    rw [h1, pow_zero, one_div, ← zpow_natCast, h2, zpow_neg, inv_inv]

theorem ilog2Ratio_spec (n d : Nat) (hn : 0 < n) (hd : 0 < d) :
    (2 : ℚ) ^ (ilog2Ratio n d) ≤ (n : ℚ) / (d : ℚ) ∧
    (n : ℚ) / (d : ℚ) < (2 : ℚ) ^ (ilog2Ratio n d + 1) := by
  obtain ⟨ha1, ha2⟩ := ilog2_spec n hn
  obtain ⟨hb1, hb2⟩ := ilog2_spec d hd
  have hnq : (0 : ℚ) < (n : ℚ) := by exact_mod_cast hn
  have hdq : (0 : ℚ) < (d : ℚ) := by exact_mod_cast hd
  have ha1q : (2 : ℚ) ^ (ilog2 n : Int) ≤ (n : ℚ) := by
    rw [zpow_natCast]; exact_mod_cast ha1
  have ha2q : (n : ℚ) < (2 : ℚ) ^ ((ilog2 n : Int) + 1) := by
    have : ((ilog2 n : Int) + 1) = ((ilog2 n + 1 : Nat) : Int) := by push_cast; ring
    rw [this, zpow_natCast]; exact_mod_cast ha2
  have hb1q : (2 : ℚ) ^ (ilog2 d : Int) ≤ (d : ℚ) := by
    rw [zpow_natCast]; exact_mod_cast hb1
  have hb2q : (d : ℚ) < (2 : ℚ) ^ ((ilog2 d : Int) + 1) := by
    have : ((ilog2 d : Int) + 1) = ((ilog2 d + 1 : Nat) : Int) := by push_cast; ring
    rw [this, zpow_natCast]; exact_mod_cast hb2
  have h2 : (0 : ℚ) < 2 := by norm_num
  have h2ne : (2 : ℚ) ≠ 0 := by norm_num
  unfold ilog2Ratio
  simp only
  split_ifs with hc
  · constructor
    · rw [zpow_two_split, div_le_div_iff₀ (by positivity) hdq]
      have : ((d * 2 ^ ((ilog2 n : Int) - (ilog2 d : Int)).toNat : Nat) : ℚ)
          ≤ ((n * 2 ^ (-((ilog2 n : Int) - (ilog2 d : Int))).toNat : Nat) : ℚ) := by
        exact_mod_cast hc
      push_cast at this
      linarith
    · rw [div_lt_iff₀ hdq]
      calc (n : ℚ) < (2 : ℚ) ^ ((ilog2 n : Int) + 1) := ha2q
        _ = (2 : ℚ) ^ ((ilog2 n : Int) - (ilog2 d : Int) + 1) * (2 : ℚ) ^ (ilog2 d : Int) := by
            rw [← zpow_add₀ h2ne]; congr 1; ring
        _ ≤ (2 : ℚ) ^ ((ilog2 n : Int) - (ilog2 d : Int) + 1) * (d : ℚ) := by
            apply mul_le_mul_of_nonneg_left hb1q; positivity
  · constructor
    · rw [le_div_iff₀ hdq]
      calc (2 : ℚ) ^ ((ilog2 n : Int) - (ilog2 d : Int) - 1) * (d : ℚ)
          ≤ (2 : ℚ) ^ ((ilog2 n : Int) - (ilog2 d : Int) - 1) * (2 : ℚ) ^ ((ilog2 d : Int) + 1) := by
            apply mul_le_mul_of_nonneg_left (le_of_lt hb2q); positivity
        _ = (2 : ℚ) ^ (ilog2 n : Int) := by
            rw [← zpow_add₀ h2ne]; congr 1; ring
        _ ≤ (n : ℚ) := ha1q
    · have hlt : (n * 2 ^ (-((ilog2 n : Int) - (ilog2 d : Int))).toNat : Nat)
          < (d * 2 ^ ((ilog2 n : Int) - (ilog2 d : Int)).toNat : Nat) := Nat.lt_of_not_le hc
      have hltq : ((n * 2 ^ (-((ilog2 n : Int) - (ilog2 d : Int))).toNat : Nat) : ℚ)
          < ((d * 2 ^ ((ilog2 n : Int) - (ilog2 d : Int)).toNat : Nat) : ℚ) := by
        exact_mod_cast hlt
      push_cast at hltq
      have e1 : (ilog2 n : Int) - (ilog2 d : Int) - 1 + 1 = (ilog2 n : Int) - (ilog2 d : Int) := by
        ring
      rw [e1, zpow_two_split, div_lt_div_iff₀ hdq (by positivity)]
      linarith

theorem scaled_ratio (n d : Nat) (hd : 0 < d) (e : Int) :
    0 < d * 2 ^ e.toNat ∧
    ((n * 2 ^ (-e).toNat : Nat) : ℚ) / ((d * 2 ^ e.toNat : Nat) : ℚ)
      = (n : ℚ) / (d : ℚ) / (2 : ℚ) ^ e := by
  have hdq : (0 : ℚ) < (d : ℚ) := by exact_mod_cast hd
  constructor
  · positivity
  · rw [zpow_two_split e]
    push_cast
    field_simp

theorem rel_of_scaled (m q E : ℚ) (hE : 0 < E) (hclose : |m - q / E| ≤ 1 / 2)
    (hbig : (4503599627370496 : ℚ) ≤ q / E) :
    |m * E - q| ≤ q * (1 / 9007199254740992) := by
  have hq : q = q / E * E := by field_simp
  have h1 : m * E - q = (m - q / E) * E := by
    rw [sub_mul, ← hq]
  rw [h1, abs_mul, abs_of_pos hE]
  calc |m - q / E| * E ≤ 1 / 2 * E := mul_le_mul_of_nonneg_right hclose (le_of_lt hE)
    _ ≤ (q / E * (1 / 9007199254740992)) * E := by
        apply mul_le_mul_of_nonneg_right _ (le_of_lt hE)
        linarith
    _ = q * (1 / 9007199254740992) := by
        rw [mul_right_comm, ← hq]

theorem round_rel (neg : Bool) (n d : Nat) (hn : 0 < n) (hd : 0 < d)
    (hlo : (2 : ℚ) ^ (-1022 : Int) ≤ (n : ℚ) / (d : ℚ))
    (hhi : (n : ℚ) / (d : ℚ) < (2 : ℚ) ^ (1023 : Int)) :
    ∃ m e, F64.round neg n d = F64.fin neg m e ∧ 0 < m ∧
      |(m : ℚ) * (2 : ℚ) ^ e - (n : ℚ) / (d : ℚ)|
        ≤ (n : ℚ) / (d : ℚ) * (1 / 9007199254740992) := by
  obtain ⟨hL1, hL2⟩ := ilog2Ratio_spec n d hn hd
  have h12 : (1 : ℚ) < 2 := by norm_num
  have h2ne : (2 : ℚ) ≠ 0 := by norm_num
  have hLlo : -1022 ≤ ilog2Ratio n d := by
    have := lt_of_le_of_lt hlo hL2
    rw [zpow_lt_zpow_iff_right₀ h12] at this
    omega
  have hLhi : ilog2Ratio n d ≤ 1022 := by
    have := lt_of_le_of_lt hL1 hhi
    rw [zpow_lt_zpow_iff_right₀ h12] at this
    omega
  have he : max (ilog2Ratio n d - 52) (-1074) = ilog2Ratio n d - 52 :=
    max_eq_left (by omega)
  obtain ⟨hDpos, hND⟩ := scaled_ratio n d hd (ilog2Ratio n d - 52)
  have hclose := rne_close (n * 2 ^ (-(ilog2Ratio n d - 52)).toNat)
    (d * 2 ^ (ilog2Ratio n d - 52).toNat) hDpos
  rw [hND] at hclose
  have hepos : (0 : ℚ) < (2 : ℚ) ^ (ilog2Ratio n d - 52) := by positivity
  have hsplit : (2 : ℚ) ^ (ilog2Ratio n d)
      = (2 : ℚ) ^ (52 : Int) * (2 : ℚ) ^ (ilog2Ratio n d - 52) := by
    rw [← zpow_add₀ h2ne]; congr 1; ring
  have h52 : (2 : ℚ) ^ (52 : Int) = 4503599627370496 := by norm_num
  have hbig : (4503599627370496 : ℚ)
      ≤ (n : ℚ) / (d : ℚ) / (2 : ℚ) ^ (ilog2Ratio n d - 52) := by
    rw [le_div_iff₀ hepos, ← h52, ← hsplit]; exact hL1
  have hmpos : 0 < rne (n * 2 ^ (-(ilog2Ratio n d - 52)).toNat)
      (d * 2 ^ (ilog2Ratio n d - 52).toNat) := by
    have h1 := (abs_le.mp hclose).1
    have : (0 : ℚ) < ((rne (n * 2 ^ (-(ilog2Ratio n d - 52)).toNat)
      (d * 2 ^ (ilog2Ratio n d - 52).toNat) : Nat) : ℚ) := by
      linarith
    exact_mod_cast this
  refine ⟨rne (n * 2 ^ (-(ilog2Ratio n d - 52)).toNat) (d * 2 ^ (ilog2Ratio n d - 52).toNat),
    ilog2Ratio n d - 52, ?_, hmpos, ?_⟩
  · unfold F64.round
    rw [if_neg (by omega)]
    simp only [he]
    rw [if_neg]
    omega
  · exact rel_of_scaled _ _ _ hepos hclose hbig

theorem round_rel_mid (neg : Bool) (n d : Nat) (hn : 0 < n) (hd : 0 < d)
    (hlo : (1 : ℚ) / 1180591620717411303424 ≤ (n : ℚ) / (d : ℚ))
    (hhi : (n : ℚ) / (d : ℚ) ≤ 1180591620717411303424) :
    ∃ m e, F64.round neg n d = F64.fin neg m e ∧ 0 < m ∧
      |(m : ℚ) * (2 : ℚ) ^ e - (n : ℚ) / (d : ℚ)|
        ≤ (n : ℚ) / (d : ℚ) * (1 / 9007199254740992) := by
  have h1 : (1 : ℚ) ≤ 2 := by norm_num
  apply round_rel neg n d hn hd
  · calc (2 : ℚ) ^ (-1022 : Int) ≤ (2 : ℚ) ^ (-70 : Int) :=
          zpow_le_zpow_right₀ h1 (by norm_num)
      _ = (1 : ℚ) / 1180591620717411303424 := by norm_num
      _ ≤ (n : ℚ) / (d : ℚ) := hlo
  · calc (n : ℚ) / (d : ℚ) ≤ 1180591620717411303424 := hhi
      _ = (2 : ℚ) ^ (70 : Int) := by norm_num
      _ < (2 : ℚ) ^ (1023 : Int) := zpow_lt_zpow_right₀ (by norm_num) (by norm_num)

theorem ofInt_pos_rel (x : Int) (hx : 0 < x) (hx2 : x < 2 ^ 63) :
    ∃ m e, F64.ofInt x = F64.fin false m e ∧ 0 < m ∧
      |(m : ℚ) * (2 : ℚ) ^ e - (x : ℚ)| ≤ (x : ℚ) * (1 / 9007199254740992) := by
  have hn : 0 < x.natAbs := by omega
  have hcast : ((x.natAbs : Nat) : ℚ) = (x : ℚ) := by
    rw [← Int.cast_natCast, Int.natAbs_of_nonneg (le_of_lt hx)]
  have hx1 : (1 : ℚ) ≤ (x : ℚ) := by exact_mod_cast hx
  have hx3 : (x : ℚ) < 2 ^ 63 := by exact_mod_cast hx2
  have hq : ((x.natAbs : Nat) : ℚ) / ((1 : Nat) : ℚ) = (x : ℚ) := by
    rw [hcast]; simp
  have := round_rel_mid false x.natAbs 1 hn (by decide)
    (by rw [hq]; linarith) (by rw [hq]; norm_num at hx3 ⊢; linarith)
  rw [hq] at this
  unfold F64.ofInt
  rw [decide_eq_false (by omega)]
  exact this

theorem div_pos_rel (ma mb : Nat) (ea eb : Int) (hb : 0 < mb) (ha : 0 < ma)
    (hlo : (1 : ℚ) / 1180591620717411303424
      ≤ (ma : ℚ) * (2 : ℚ) ^ ea / ((mb : ℚ) * (2 : ℚ) ^ eb))
    (hhi : (ma : ℚ) * (2 : ℚ) ^ ea / ((mb : ℚ) * (2 : ℚ) ^ eb) ≤ 1180591620717411303424) :
    ∃ m e, F64.div (F64.fin false ma ea) (F64.fin false mb eb) = F64.fin false m e ∧ 0 < m ∧
      |(m : ℚ) * (2 : ℚ) ^ e - (ma : ℚ) * (2 : ℚ) ^ ea / ((mb : ℚ) * (2 : ℚ) ^ eb)|
        ≤ (ma : ℚ) * (2 : ℚ) ^ ea / ((mb : ℚ) * (2 : ℚ) ^ eb) * (1 / 9007199254740992) := by
  have hbq : (0 : ℚ) < (mb : ℚ) := by exact_mod_cast hb
  have hq : ((ma * 2 ^ ea.toNat * 2 ^ (-eb).toNat : Nat) : ℚ)
      / ((mb * 2 ^ eb.toNat * 2 ^ (-ea).toNat : Nat) : ℚ)
      = (ma : ℚ) * (2 : ℚ) ^ ea / ((mb : ℚ) * (2 : ℚ) ^ eb) := by
    rw [zpow_two_split ea, zpow_two_split eb]
    push_cast
    field_simp
    ring
  have := round_rel_mid false (ma * 2 ^ ea.toNat * 2 ^ (-eb).toNat)
    (mb * 2 ^ eb.toNat * 2 ^ (-ea).toNat) (by positivity) (by positivity)
    (by rw [hq]; exact hlo) (by rw [hq]; exact hhi)
  rw [hq] at this
  have hdiv : F64.div (F64.fin false ma ea) (F64.fin false mb eb)
      = F64.round false (ma * 2 ^ ea.toNat * 2 ^ (-eb).toNat)
          (mb * 2 ^ eb.toNat * 2 ^ (-ea).toNat) := by
    simp [F64.div, Nat.pos_iff_ne_zero.mp hb]
  rw [hdiv]
  exact this

theorem mul_pos_rel (ma mb : Nat) (ea eb : Int) (ha : 0 < ma) (hb : 0 < mb)
    (hlo : (1 : ℚ) / 1180591620717411303424
      ≤ (ma : ℚ) * (2 : ℚ) ^ ea * ((mb : ℚ) * (2 : ℚ) ^ eb))
    (hhi : (ma : ℚ) * (2 : ℚ) ^ ea * ((mb : ℚ) * (2 : ℚ) ^ eb) ≤ 1180591620717411303424) :
    ∃ m e, F64.mul (F64.fin false ma ea) (F64.fin false mb eb) = F64.fin false m e ∧ 0 < m ∧
      |(m : ℚ) * (2 : ℚ) ^ e - (ma : ℚ) * (2 : ℚ) ^ ea * ((mb : ℚ) * (2 : ℚ) ^ eb)|
        ≤ (ma : ℚ) * (2 : ℚ) ^ ea * ((mb : ℚ) * (2 : ℚ) ^ eb) * (1 / 9007199254740992) := by
  have h2ne : (2 : ℚ) ≠ 0 := by norm_num
  have hq : ((ma * mb * 2 ^ (ea + eb).toNat : Nat) : ℚ)
      / ((2 ^ (-(ea + eb)).toNat : Nat) : ℚ)
      = (ma : ℚ) * (2 : ℚ) ^ ea * ((mb : ℚ) * (2 : ℚ) ^ eb) := by
    have : (ma : ℚ) * (2 : ℚ) ^ ea * ((mb : ℚ) * (2 : ℚ) ^ eb)
        = (ma : ℚ) * (mb : ℚ) * (2 : ℚ) ^ (ea + eb) := by
      rw [zpow_add₀ h2ne]; ring
    rw [this, zpow_two_split (ea + eb)]
    push_cast
    field_simp
  have := round_rel_mid false (ma * mb * 2 ^ (ea + eb).toNat)
    (2 ^ (-(ea + eb)).toNat) (by positivity) (by positivity)
    (by rw [hq]; exact hlo) (by rw [hq]; exact hhi)
  rw [hq] at this
  have hmul : F64.mul (F64.fin false ma ea) (F64.fin false mb eb)
      = F64.round false (ma * mb * 2 ^ (ea + eb).toNat) (2 ^ (-(ea + eb)).toNat) := by
    simp [F64.mul]
  rw [hmul]
  exact this

/-! ### Error analysis of `percentageInt` -/

theorem rel_div (x y a b u : ℚ) (hx : 0 < x) (hy : 0 < y) (hu0 : 0 ≤ u) (hu1 : u ≤ 1 / 4)
    (ha : |a - x| ≤ x * u) (hb : |b - y| ≤ y * u) :
    0 < b ∧ |a / b - x / y| ≤ x / y * (3 * u) := by
  obtain ⟨ha1, ha2⟩ := abs_le.mp ha
  obtain ⟨hb1, hb2⟩ := abs_le.mp hb
  have hyu : y * u ≤ y * (1 / 4) := mul_le_mul_of_nonneg_left hu1 (le_of_lt hy)
  have hbpos : 0 < b := by linarith
  have hxy : 0 < x / y := div_pos hx hy
  have hxyy : x / y * y = x := by field_simp
  refine ⟨hbpos, ?_⟩
  rw [abs_le]
  constructor
  · -- x / y * (1 - 3u) ≤ a / b
    have h1 : x / y * (1 - 3 * u) * b ≤ a := by
      have h3 : 0 ≤ x / y * (1 - 3 * u) := mul_nonneg (le_of_lt hxy) (by linarith)
      calc x / y * (1 - 3 * u) * b ≤ x / y * (1 - 3 * u) * (y * (1 + u)) :=
            mul_le_mul_of_nonneg_left (by linarith) h3
        _ = x * ((1 - 3 * u) * (1 + u)) := by
            have : x / y * (1 - 3 * u) * (y * (1 + u)) = (x / y * y) * ((1 - 3 * u) * (1 + u)) := by
              ring
            rw [this, hxyy]
        _ ≤ x * (1 - u) := by
            apply mul_le_mul_of_nonneg_left _ (le_of_lt hx)
            nlinarith [mul_nonneg hu0 hu0]
        _ ≤ a := by linarith
    have h2 : x / y * (1 - 3 * u) ≤ a / b := by
      rw [le_div_iff₀ hbpos]; exact h1
    linarith
  · have h1 : a ≤ x / y * (1 + 3 * u) * b := by
      have h3 : 0 ≤ x / y * (1 + 3 * u) := mul_nonneg (le_of_lt hxy) (by linarith)
      calc a ≤ x * (1 + u) := by linarith
        _ ≤ x * ((1 + 3 * u) * (1 - u)) := by
            apply mul_le_mul_of_nonneg_left _ (le_of_lt hx)
            nlinarith [mul_nonneg hu0 (by linarith : (0 : ℚ) ≤ 1 - 3 * u)]
        _ = x / y * (1 + 3 * u) * (y * (1 - u)) := by
            have : x / y * (1 + 3 * u) * (y * (1 - u)) = (x / y * y) * ((1 + 3 * u) * (1 - u)) := by
              ring
            rw [this, hxyy]
        _ ≤ x / y * (1 + 3 * u) * b :=
            mul_le_mul_of_nonneg_left (by linarith) h3
    have h2 : a / b ≤ x / y * (1 + 3 * u) := by
      rw [div_le_iff₀ hbpos]; exact h1
    linarith

theorem rel_trans (w v z ε δ : ℚ) (hδ : 0 ≤ δ)
    (h1 : |v - w| ≤ w * ε) (h2 : |z - v| ≤ v * δ) :
    |z - w| ≤ w * (ε + δ + ε * δ) := by
  obtain ⟨h1a, h1b⟩ := abs_le.mp h1
  obtain ⟨h2a, h2b⟩ := abs_le.mp h2
  have hv : v ≤ w * (1 + ε) := by linarith
  have hvd : v * δ ≤ w * (1 + ε) * δ := mul_le_mul_of_nonneg_right hv hδ
  rw [abs_le]
  constructor <;> nlinarith

theorem nearest_of_close (A y n : Int) (p : ℚ) (hy : 0 < y)
    (hp : |p - (A : ℚ) / (y : ℚ)| < 1 / (2 * (y : ℚ)))
    (hn1 : (n : ℚ) ≤ p + 1 / 2) (hn2 : p + 1 / 2 < (n : ℚ) + 1) :
    |(n : ℚ) - (A : ℚ) / (y : ℚ)| ≤ 1 / 2 := by
  have hyq : (0 : ℚ) < (y : ℚ) := by exact_mod_cast hy
  obtain ⟨hp1, hp2⟩ := abs_lt.mp hp
  have hry : (A : ℚ) / (y : ℚ) * (y : ℚ) = (A : ℚ) := by field_simp
  have hiy : 1 / (2 * (y : ℚ)) * (y : ℚ) = 1 / 2 := by
    field_simp
    ring
  -- multiply the closeness bounds by y
  have hp1y : -(1 / 2) < p * (y : ℚ) - (A : ℚ) := by
    have := mul_lt_mul_of_pos_right hp1 hyq
    rw [neg_mul, hiy, sub_mul, hry] at this
    exact this
  have hp2y : p * (y : ℚ) - (A : ℚ) < 1 / 2 := by
    have := mul_lt_mul_of_pos_right hp2 hyq
    rw [hiy, sub_mul, hry] at this
    exact this
  have hn1y : (n : ℚ) * (y : ℚ) ≤ p * (y : ℚ) + 1 / 2 * (y : ℚ) := by
    have := mul_le_mul_of_nonneg_right hn1 (le_of_lt hyq)
    rw [add_mul] at this
    exact this
  have hn2y : p * (y : ℚ) + 1 / 2 * (y : ℚ) < (n : ℚ) * (y : ℚ) + (y : ℚ) := by
    have := mul_lt_mul_of_pos_right hn2 hyq
    rw [add_mul, add_mul, one_mul] at this
    exact this
  have key : ∀ c : ℚ, |c * (y : ℚ) - (A : ℚ)| ≤ 1 / 2 * (y : ℚ) →
      |c - (A : ℚ) / (y : ℚ)| ≤ 1 / 2 := by
    intro c hc
    have : c - (A : ℚ) / (y : ℚ) = (c * (y : ℚ) - (A : ℚ)) / (y : ℚ) := by
      field_simp
    rw [this, abs_div, abs_of_pos hyq, div_le_iff₀ hyq]
    exact hc
  apply key
  rw [abs_le]
  constructor
  · -- 2A ≤ (2n+1) y
    by_contra hcon
    have hcon2 : (n : ℚ) * (y : ℚ) - (A : ℚ) < -(1 / 2 * (y : ℚ)) := lt_of_not_le hcon
    have hint : 2 * n * y + y < 2 * A := by
      have : ((2 * n * y + y : Int) : ℚ) < ((2 * A : Int) : ℚ) := by
        push_cast; linarith
      exact_mod_cast this
    have hint2 : 2 * n * y + y + 1 ≤ 2 * A := by omega
    have hq : ((2 * n * y + y + 1 : Int) : ℚ) ≤ ((2 * A : Int) : ℚ) := by
      exact_mod_cast hint2
    push_cast at hq
    linarith
  · by_contra hcon
    have hcon2 : 1 / 2 * (y : ℚ) < (n : ℚ) * (y : ℚ) - (A : ℚ) := lt_of_not_le hcon
    have hint : 2 * A < 2 * n * y - y := by
      have : ((2 * A : Int) : ℚ) < ((2 * n * y - y : Int) : ℚ) := by
        push_cast; linarith
      exact_mod_cast this
    have hint2 : 2 * A + 1 ≤ 2 * n * y - y := by omega
    have hq : ((2 * A + 1 : Int) : ℚ) ≤ ((2 * n * y - y : Int) : ℚ) := by
      exact_mod_cast hint2
    push_cast at hq
    linarith

theorem toInt_Round_spec (m : Nat) (e : Int)
    (hb : (m : ℚ) * (2 : ℚ) ^ e ≤ 1152921504606846976) :
    ((F64.toInt (F64.Round (F64.fin false m e)) : Int) : ℚ) ≤ (m : ℚ) * (2 : ℚ) ^ e + 1 / 2 ∧
    (m : ℚ) * (2 : ℚ) ^ e + 1 / 2 < ((F64.toInt (F64.Round (F64.fin false m e)) : Int) : ℚ) + 1 := by
  rcases le_or_lt 0 e with h | h
  · have hR : F64.Round (F64.fin false m e) = F64.fin false m e := by
      simp [F64.Round, h]
    have hval : ((m * 2 ^ e.toNat : Nat) : ℚ) = (m : ℚ) * (2 : ℚ) ^ e := by
      rw [zpow_two_split e]
      have : (-e).toNat = 0 := by omega
      rw [this]; push_cast; simp
    have hlt : ((m * 2 ^ e.toNat : Nat) : Int) < 2 ^ 63 := by
      have : ((m * 2 ^ e.toNat : Nat) : ℚ) < 9223372036854775808 := by
        rw [hval]; linarith
      have h2 : (((m * 2 ^ e.toNat : Nat) : Int) : ℚ) < ((2 ^ 63 : Int) : ℚ) := by
        push_cast; push_cast at this; linarith
      exact_mod_cast h2
    have hT : F64.toInt (F64.fin false m e) = ((m * 2 ^ e.toNat : Nat) : Int) := by
      simp only [F64.toInt, h, if_true, Bool.false_eq_true, if_false]
      rw [if_pos]
      constructor
      · have : (0 : Int) ≤ ((m * 2 ^ e.toNat : Nat) : Int) := Int.natCast_nonneg _
        omega
      · exact hlt
    rw [hR, hT]
    rw [Int.cast_natCast, hval]
    constructor <;> linarith
  · have hD : 0 < 2 ^ (-e).toNat := by positivity
    have hR : F64.Round (F64.fin false m e)
        = F64.fin false ((2 * m + 2 ^ (-e).toNat) / (2 * 2 ^ (-e).toNat)) 0 := by
      simp [F64.Round, not_le.mpr h]
    have hval : (m : ℚ) * (2 : ℚ) ^ e = (m : ℚ) / ((2 ^ (-e).toNat : Nat) : ℚ) := by
      rw [zpow_two_split e]
      have : e.toNat = 0 := by omega
      rw [this]; push_cast; simp; ring
    have hDq : (0 : ℚ) < ((2 ^ (-e).toNat : Nat) : ℚ) := by exact_mod_cast hD
    have hmD : (m : ℚ) ≤ 1152921504606846976 * ((2 ^ (-e).toNat : Nat) : ℚ) := by
      rw [hval, div_le_iff₀ hDq] at hb; exact hb
    have hmD2 : m ≤ 1152921504606846976 * 2 ^ (-e).toNat := by
      have : ((m : Nat) : ℚ) ≤ ((1152921504606846976 * 2 ^ (-e).toNat : Nat) : ℚ) := by
        push_cast; push_cast at hmD; exact hmD
      exact_mod_cast this
    rw [hR, hval]
    obtain ⟨D, hDdef⟩ : ∃ D : Nat, D = 2 ^ (-e).toNat := ⟨_, rfl⟩
    rw [← hDdef] at hD hmD2 hDq ⊢
    have hdl : (2 * m + D) / (2 * D) * (2 * D) ≤ 2 * m + D := Nat.div_mul_le_self _ _
    have hdr : 2 * m + D < ((2 * m + D) / (2 * D) + 1) * (2 * D) := by
      have h1 := Nat.div_add_mod (2 * m + D) (2 * D)
      have h2 := Nat.mod_lt (2 * m + D) (by omega : 0 < 2 * D)
      have h3 : ((2 * m + D) / (2 * D) + 1) * (2 * D)
          = 2 * D * ((2 * m + D) / (2 * D)) + 2 * D := by ring
      omega
    have htle : (2 * m + D) / (2 * D) ≤ 1152921504606846977 := by
      apply Nat.div_le_of_le_mul
      nlinarith
    obtain ⟨t, htdef⟩ : ∃ t : Nat, t = (2 * m + D) / (2 * D) := ⟨_, rfl⟩
    rw [← htdef] at hdl hdr htle ⊢
    have hT : F64.toInt (F64.fin false t 0) = (t : Int) := by
      simp only [F64.toInt, le_refl, if_true, Bool.false_eq_true, if_false, Int.toNat_zero,
        pow_zero, mul_one]
      rw [if_pos]
      constructor <;> omega
    rw [hT, Int.cast_natCast]
    have hdlq : (t : ℚ) * (2 * (D : ℚ)) ≤ 2 * (m : ℚ) + (D : ℚ) := by
      exact_mod_cast hdl
    have hdrq : 2 * (m : ℚ) + (D : ℚ) < ((t : ℚ) + 1) * (2 * (D : ℚ)) := by
      exact_mod_cast hdr
    have h2D : (0 : ℚ) < 2 * (D : ℚ) := by linarith
    have hmid : (m : ℚ) / (D : ℚ) + 1 / 2 = (2 * (m : ℚ) + (D : ℚ)) / (2 * (D : ℚ)) := by
      field_simp
      ring
    rw [hmid]
    constructor
    · rw [le_div_iff₀ h2D]; exact hdlq
    · rw [div_lt_iff₀ h2D]; exact hdrq

theorem rel_scale (w v k ε : ℚ) (hk : 0 ≤ k) (h : |v - w| ≤ w * ε) :
    |v * k - w * k| ≤ w * k * ε := by
  have : v * k - w * k = (v - w) * k := by ring
  rw [this, abs_mul, abs_of_nonneg hk]
  calc |v - w| * k ≤ w * ε * k := mul_le_mul_of_nonneg_right h hk
    _ = w * k * ε := by ring

theorem rel_weaken (w v ε ε' : ℚ) (hw : 0 ≤ w) (hε : ε ≤ ε') (h : |v - w| ≤ w * ε) :
    |v - w| ≤ w * ε' :=
  le_trans h (mul_le_mul_of_nonneg_left hε hw)

theorem rel_range (w v ε : ℚ) (hw : 0 ≤ w) (hε : ε ≤ 1 / 2) (h : |v - w| ≤ w * ε) :
    w / 2 ≤ v ∧ v ≤ 2 * w := by
  obtain ⟨h1, h2⟩ := abs_le.mp h
  have : w * ε ≤ w * (1 / 2) := mul_le_mul_of_nonneg_left hε hw
  constructor <;> linarith

theorem ofInt_hundred : F64.ofInt 100 = F64.fin false 7036874417766400 (-46) := by decide

theorem percentageInt_zero_covered (total : Int) (h2 : 0 < total) (h3 : total < 2 ^ 63) :
    percentageInt 0 total = 0 := by
  obtain ⟨mb, eb, hB, hmb, -⟩ := ofInt_pos_rel total h2 h3
  have hA : F64.ofInt 0 = F64.fin false 0 0 := by decide
  have hne : total ≠ 0 := by omega
  have hmb0 : mb ≠ 0 := by omega
  simp [percentageInt, percentageIntWith, hne, hA, hB, ofInt_hundred, F64.div, F64.mul,
    F64.round, F64.Round, F64.toInt, hmb0]

/-- The float64 value `(covered / total) * 100` computed by the helpers, for positive
arguments in range: a positive finite number within relative error `5.02 * 2^-53` of the
exact percentage. -/
theorem percentage_float_close (covered total : Int) (h0 : 0 < covered)
    (h1 : covered < 2 ^ 43) (h2 : 0 < total) (h3 : total < 2 ^ 63) :
    ∃ mp ep, F64.mul (F64.div (F64.ofInt covered) (F64.ofInt total)) (F64.ofInt 100)
        = F64.fin false mp ep ∧
      |(mp : ℚ) * (2 : ℚ) ^ ep - (covered : ℚ) / (total : ℚ) * 100|
        ≤ (covered : ℚ) / (total : ℚ) * 100 * (502 / 100 * (1 / 9007199254740992)) := by
  have hx1 : (1 : ℚ) ≤ (covered : ℚ) := by exact_mod_cast h0
  have hx2 : (covered : ℚ) ≤ 8796093022207 := by
    have : covered ≤ 8796093022207 := by omega
    exact_mod_cast this
  have hy1 : (1 : ℚ) ≤ (total : ℚ) := by exact_mod_cast h2
  have hy2 : (total : ℚ) ≤ 9223372036854775808 := by
    have : total ≤ 9223372036854775808 := by omega
    exact_mod_cast this
  have hx : (0 : ℚ) < (covered : ℚ) := by linarith
  have hy : (0 : ℚ) < (total : ℚ) := by linarith
  obtain ⟨ma, ea, hA, hma, hAerr⟩ := ofInt_pos_rel covered h0 (by omega)
  obtain ⟨mb, eb, hB, hmb, hBerr⟩ := ofInt_pos_rel total h2 h3
  -- the quotient x / y and its bounds
  have hq0 : 0 < (covered : ℚ) / (total : ℚ) := div_pos hx hy
  have hqlo : (1 : ℚ) / 9223372036854775808 ≤ (covered : ℚ) / (total : ℚ) := by
    rw [div_le_div_iff₀ (by norm_num) hy]; linarith
  have hqhi : (covered : ℚ) / (total : ℚ) ≤ 8796093022207 := by
    rw [div_le_iff₀ hy]
    calc (covered : ℚ) ≤ 8796093022207 * 1 := by linarith
      _ ≤ 8796093022207 * (total : ℚ) := mul_le_mul_of_nonneg_left hy1 (by norm_num)
  -- a / b
  obtain ⟨hbpos, hDerr⟩ := rel_div (covered : ℚ) (total : ℚ) ((ma : ℚ) * (2 : ℚ) ^ ea)
    ((mb : ℚ) * (2 : ℚ) ^ eb) (1 / 9007199254740992) hx hy (by norm_num) (by norm_num)
    hAerr hBerr
  obtain ⟨hD1, hD2⟩ := rel_range _ _ _ (le_of_lt hq0) (by norm_num) hDerr
  obtain ⟨mc, ec, hC, hmc, hCerr⟩ := div_pos_rel ma mb ea eb hmb hma
    (by linarith) (by linarith)
  have hCtot := rel_weaken _ _ _ (401 / 100 * (1 / 9007199254740992)) (le_of_lt hq0)
    (by norm_num)
    (rel_trans ((covered : ℚ) / (total : ℚ))
      ((ma : ℚ) * (2 : ℚ) ^ ea / ((mb : ℚ) * (2 : ℚ) ^ eb)) ((mc : ℚ) * (2 : ℚ) ^ ec)
      (3 * (1 / 9007199254740992)) (1 / 9007199254740992) (by norm_num) hDerr hCerr)
  obtain ⟨hC1, hC2⟩ := rel_range _ _ _ (le_of_lt hq0) (by norm_num) hCtot
  -- times 100
  have hH : ((7036874417766400 : Nat) : ℚ) * (2 : ℚ) ^ (-46 : Int) = 100 := by norm_num
  obtain ⟨mp, ep, hP, hmp, hPerr⟩ := mul_pos_rel mc 7036874417766400 ec (-46) hmc (by norm_num)
    (by rw [hH]; linarith) (by rw [hH]; linarith)
  rw [hH] at hPerr
  have hC100 := rel_scale _ _ 100 _ (by norm_num) hCtot
  have hPtot := rel_weaken _ _ _ (502 / 100 * (1 / 9007199254740992))
    (le_of_lt (mul_pos hq0 (by norm_num : (0 : ℚ) < 100))) (by norm_num)
    (rel_trans ((covered : ℚ) / (total : ℚ) * 100)
      ((mc : ℚ) * (2 : ℚ) ^ ec * 100) ((mp : ℚ) * (2 : ℚ) ^ ep) _
      (1 / 9007199254740992) (by norm_num) hC100 hPerr)
  refine ⟨mp, ep, ?_, hPtot⟩
  rw [hA, hB, hC, ofInt_hundred, hP]

theorem percentageInt_close (covered total : Int) (h0 : 0 < covered) (h1 : covered < 2 ^ 43)
    (h2 : 0 < total) (h3 : total < 2 ^ 63) :
    |((percentageInt covered total : Int) : ℚ) - (covered : ℚ) * 100 / (total : ℚ)| ≤ 1 / 2 := by
  obtain ⟨mp, ep, hP, hPtot⟩ := percentage_float_close covered total h0 h1 h2 h3
  have hx1 : (1 : ℚ) ≤ (covered : ℚ) := by exact_mod_cast h0
  have hx2 : (covered : ℚ) ≤ 8796093022207 := by
    have : covered ≤ 8796093022207 := by omega
    exact_mod_cast this
  have hy1 : (1 : ℚ) ≤ (total : ℚ) := by exact_mod_cast h2
  have hx : (0 : ℚ) < (covered : ℚ) := by linarith
  have hy : (0 : ℚ) < (total : ℚ) := by linarith
  have hq0 : 0 < (covered : ℚ) / (total : ℚ) := div_pos hx hy
  have hqhi : (covered : ℚ) / (total : ℚ) ≤ 8796093022207 := by
    rw [div_le_iff₀ hy]
    calc (covered : ℚ) ≤ 8796093022207 * 1 := by linarith
      _ ≤ 8796093022207 * (total : ℚ) := mul_le_mul_of_nonneg_left hy1 (by norm_num)
  have hr : (covered : ℚ) / (total : ℚ) * 100 = ((covered * 100 : Int) : ℚ) / (total : ℚ) := by
    push_cast; ring
  -- the float result is within 1 / (2 * total) of the exact percentage
  have hclose : |(mp : ℚ) * (2 : ℚ) ^ ep - ((covered * 100 : Int) : ℚ) / (total : ℚ)|
      < 1 / (2 * (total : ℚ)) := by
    rw [← hr]
    apply lt_of_le_of_lt hPtot
    have e1 : (covered : ℚ) / (total : ℚ) * 100 * (502 / 100 * (1 / 9007199254740992))
        = ((covered : ℚ) * (502 / 9007199254740992)) / (total : ℚ) := by ring
    have e2 : 1 / (2 * (total : ℚ)) = (1 / 2) / (total : ℚ) := by
      field_simp
    rw [e1, e2]
    apply div_lt_div_of_pos_right _ hy
    linarith
  have hsmall : (mp : ℚ) * (2 : ℚ) ^ ep ≤ 1152921504606846976 := by
    obtain ⟨-, hb⟩ := rel_range _ _ _ (le_of_lt (mul_pos hq0 (by norm_num : (0 : ℚ) < 100)))
      (by norm_num) hPtot
    linarith
  obtain ⟨hn1, hn2⟩ := toInt_Round_spec mp ep hsmall
  have hne : total ≠ 0 := by omega
  have hval : percentageInt covered total
      = F64.toInt (F64.Round (F64.fin false mp ep)) := by
    simp only [percentageInt, percentageIntWith, hne, if_false, hP]
  rw [hval]
  have := nearest_of_close (covered * 100) total _ _ h2 hclose hn1 hn2
  rw [← hr] at this
  have h4 : (covered : ℚ) * 100 / (total : ℚ) = (covered : ℚ) / (total : ℚ) * 100 := by ring
  rw [h4]
  exact this

theorem replicate_zero_snoc (p : Nat) (hp : 0 < p) :
    String.mk (List.replicate (p - 1) '0') ++ "0" = String.mk (List.replicate p '0') := by
  obtain ⟨k, rfl⟩ : ∃ k, p = k + 1 := ⟨p - 1, by omega⟩
  have h1 : String.mk (List.replicate (k + 1 - 1) '0') ++ "0"
      = String.mk (List.replicate k '0' ++ ['0']) := rfl
  rw [h1]
  congr 1
  exact (List.replicate_succ' k '0').symm

theorem formatFixed_hundred (p : Nat) :
    formatFixed p (F64.fin false 7036874417766400 (-46))
      = "100" ++ (if p = 0 then "" else "." ++ String.mk (List.replicate p '0')) := by
  have hD : (2 : Nat) ^ (-(-46 : Int)).toNat = 70368744177664 := by decide
  have hN : 7036874417766400 * 2 ^ (-46 : Int).toNat * 10 ^ p
      = 70368744177664 * (100 * 10 ^ p) := by
    have : (-46 : Int).toNat = 0 := by decide
    rw [this]; ring
  have hr : rne (70368744177664 * (100 * 10 ^ p)) 70368744177664 = 100 * 10 ^ p := by
    unfold rne
    simp
  have hpos : 0 < 10 ^ p := by positivity
  have hq : 100 * 10 ^ p / 10 ^ p = 100 := Nat.mul_div_cancel _ hpos
  have hm : 100 * 10 ^ p % 10 ^ p = 0 := Nat.mul_mod_left _ _
  unfold formatFixed
  simp only [hD, hN, hr, hq, hm]
  have h100 : toString (100 : Nat) = "100" := by decide
  have h0 : toString (0 : Nat) = "0" := by decide
  rw [h100, h0]
  by_cases hp : p = 0
  · simp [hp]
  · have hp1 : 0 < p := Nat.pos_of_ne_zero hp
    simp only [hp, if_false, Bool.false_eq_true]
    have hl : leftPad p "0" = String.mk (List.replicate p '0') := by
      unfold leftPad
      have : ("0" : String).length = 1 := by decide
      rw [this]
      exact replicate_zero_snoc p hp1
    rw [hl]
    rfl

set_option maxRecDepth 100000 in
/-- C9 (counterexample): for `covered = 2^50` and `total = 200 * 2^50 + 1` the exact percentage
lies below one half, yet `percentageInt` returns 1, which is further than one half from it. -/
theorem percentageInt_nearest_counterexample :
    percentageInt 1125899906842624 225179981368524801 = 1 ∧
    ¬ (|((percentageInt 1125899906842624 225179981368524801 : Int) : ℚ)
        - (1125899906842624 : ℚ) * 100 / 225179981368524801| ≤ 1 / 2) := by
  have h : percentageInt 1125899906842624 225179981368524801 = 1 := by decide
  refine ⟨h, ?_⟩
  rw [h]
  norm_num [abs_le]

set_option maxRecDepth 100000 in
/-- C9 (amended): for `0 ≤ covered < 2^43` and `0 < total < 2^63`, `percentageInt` is a whole
number nearest to the exact value `covered * 100 / total` (at most one half away from it, in
rational arithmetic); and `percentageInt(1, 3) = 33`. -/
theorem percentageInt_nearest_in_range (covered total : Int) (h0 : 0 ≤ covered)
    (h1 : covered < 2 ^ 43) (h2 : 0 < total) (h3 : total < 2 ^ 63) :
    |((percentageInt covered total : Int) : ℚ) - (covered : ℚ) * 100 / (total : ℚ)| ≤ 1 / 2 ∧
    percentageInt 1 3 = 33 := by
  refine ⟨?_, by decide⟩
  rcases eq_or_lt_of_le h0 with h | h
  · rw [← h, percentageInt_zero_covered total h2 h3]
    norm_num
  · exact percentageInt_close covered total h h1 h2 h3

/-- Witness for C9 (amended): four lines covered out of six. -/
theorem percentageInt_nearest_in_range_witness :
    |((percentageInt 4 6 : Int) : ℚ) - ((4 : Int) : ℚ) * 100 / ((6 : Int) : ℚ)| ≤ 1 / 2 :=
  (percentageInt_nearest_in_range 4 6 (by decide) (by decide) (by decide) (by decide)).1

/-! ### Report generation: analysis failure, template failure, file discipline -/

/-- C11: when `AnalyzeSourceCoverage` fails, `GenerateReport` returns exactly that error for
every report path, empty or not, and makes no call at all (the trace is unchanged), whereas a
call of either exporter always leaves at least its template-parse event on the trace. -/
theorem GenerateReport_analysis_error (env : Env) (compilations : List Compilation)
    (coverageMaps : CoverageMaps) (reportPath : String) (t : List Event) (err : GoError)
    (h : env.analyze compilations coverageMaps = Except.error err) :
    GenerateReport env compilations coverageMaps reportPath t
      = (Outcome.returned (some err), t) ∧
    (∀ sa p t0, ∃ rest, (exportCoverageReport env sa p t0).2
      = t0 ++ Event.parseTemplate "coverage_report.html" :: rest) ∧
    (∀ sa p t0, ∃ rest, (exportCoverageReportJSON env sa p t0).2
      = t0 ++ Event.parseTemplate "coverage_report.json" :: rest) := by
  refine ⟨?_, fun sa p t0 => exportCoverageReport_trace env sa p t0,
    fun sa p t0 => exportCoverageReportJSON_trace env sa p t0⟩
  unfold GenerateReport
  rw [h]

/-- Witness for C11: the analysis fails and the report path is `out`. -/
theorem GenerateReport_analysis_error_witness :
    GenerateReport envAnalysisFails [] ⟨0⟩ "out" []
      = (Outcome.returned (some "source analysis failed"), []) :=
  (GenerateReport_analysis_error envAnalysisFails [] ⟨0⟩ "out" [] "source analysis failed"
    rfl).1

/-- C12 (the code at the failing input): when the JSON template does not parse, the JSON
exporter still prints the report path, creates the directory and creates the file, and then
panics in `Execute` on the nil template instead of returning an error; the HTML exporter, in
the same situation, returns the parse error after the parse alone. -/
theorem exportCoverageReportJSON_ignores_parse_error :
    exportCoverageReportJSON envTemplatesBroken { Files := [] } "out" []
      = (Outcome.panicked,
          [Event.parseTemplate "coverage_report.json",
           Event.println "out/coverage_report.json",
           Event.makeDirectory "out",
           Event.create "out/coverage_report.json"]) ∧
    exportCoverageReport envTemplatesBroken { Files := [] } "out" []
      = (Outcome.returned
          (some (parseFailed "template: coverage_report.html:1: unexpected EOF")),
          [Event.parseTemplate "coverage_report.html"]) := by
  constructor <;> decide

/-- The HTML exporter, once the template has parsed, the directory exists and the file is
created: it executes the template, closes the file once, and returns the first failure of the
two. -/
theorem exportCoverageReport_write_then_close (env : Env) (sa : SourceAnalysis) (p : String)
    (t : List Event)
    (hparse : env.parseHTML = none)
    (hdir : env.makeDirectory (t ++ [Event.parseTemplate "coverage_report.html"])
      (env.dir (env.join p "coverage_report.html")) = none)
    (hcreate : env.create (t ++ [Event.parseTemplate "coverage_report.html"]
      ++ [Event.makeDirectory (env.dir (env.join p "coverage_report.html"))])
      (env.join p "coverage_report.html") = none) :
    exportCoverageReport env sa p t
      = (Outcome.returned
          (if env.execute (t ++ [Event.parseTemplate "coverage_report.html"]
                ++ [Event.makeDirectory (env.dir (env.join p "coverage_report.html"))]
                ++ [Event.create (env.join p "coverage_report.html")])
              "coverage_report.html" (env.join p "coverage_report.html") sa = none
           then env.close (t ++ [Event.parseTemplate "coverage_report.html"]
                ++ [Event.makeDirectory (env.dir (env.join p "coverage_report.html"))]
                ++ [Event.create (env.join p "coverage_report.html")]
                ++ [Event.execute "coverage_report.html" (env.join p "coverage_report.html")])
              (env.join p "coverage_report.html")
           else env.execute (t ++ [Event.parseTemplate "coverage_report.html"]
                ++ [Event.makeDirectory (env.dir (env.join p "coverage_report.html"))]
                ++ [Event.create (env.join p "coverage_report.html")])
              "coverage_report.html" (env.join p "coverage_report.html") sa),
         t ++ [Event.parseTemplate "coverage_report.html"]
           ++ [Event.makeDirectory (env.dir (env.join p "coverage_report.html"))]
           ++ [Event.create (env.join p "coverage_report.html")]
           ++ [Event.execute "coverage_report.html" (env.join p "coverage_report.html")]
           ++ [Event.close (env.join p "coverage_report.html")]) := by
  unfold exportCoverageReport
  simp only [hparse, hdir, hcreate]

/-- The JSON exporter, when its template has parsed, the directory exists and the file is
created: it executes the template, closes the file once, and returns the first failure of the
two. -/
theorem exportCoverageReportJSON_write_then_close (env : Env) (sa : SourceAnalysis)
    (p : String) (t : List Event)
    (hparse : env.parseJSON = none)
    (hdir : env.makeDirectory (t ++ [Event.parseTemplate "coverage_report.json"]
      ++ [Event.println (env.join p "coverage_report.json")])
      (env.dir (env.join p "coverage_report.json")) = none)
    (hcreate : env.create (t ++ [Event.parseTemplate "coverage_report.json"]
      ++ [Event.println (env.join p "coverage_report.json")]
      ++ [Event.makeDirectory (env.dir (env.join p "coverage_report.json"))])
      (env.join p "coverage_report.json") = none) :
    exportCoverageReportJSON env sa p t
      = (Outcome.returned
          (if env.execute (t ++ [Event.parseTemplate "coverage_report.json"]
                ++ [Event.println (env.join p "coverage_report.json")]
                ++ [Event.makeDirectory (env.dir (env.join p "coverage_report.json"))]
                ++ [Event.create (env.join p "coverage_report.json")])
              "coverage_report.json" (env.join p "coverage_report.json") sa = none
           then env.close (t ++ [Event.parseTemplate "coverage_report.json"]
                ++ [Event.println (env.join p "coverage_report.json")]
                ++ [Event.makeDirectory (env.dir (env.join p "coverage_report.json"))]
                ++ [Event.create (env.join p "coverage_report.json")]
                ++ [Event.execute "coverage_report.json" (env.join p "coverage_report.json")])
              (env.join p "coverage_report.json")
           else env.execute (t ++ [Event.parseTemplate "coverage_report.json"]
                ++ [Event.println (env.join p "coverage_report.json")]
                ++ [Event.makeDirectory (env.dir (env.join p "coverage_report.json"))]
                ++ [Event.create (env.join p "coverage_report.json")])
              "coverage_report.json" (env.join p "coverage_report.json") sa),
         t ++ [Event.parseTemplate "coverage_report.json"]
           ++ [Event.println (env.join p "coverage_report.json")]
           ++ [Event.makeDirectory (env.dir (env.join p "coverage_report.json"))]
           ++ [Event.create (env.join p "coverage_report.json")]
           ++ [Event.execute "coverage_report.json" (env.join p "coverage_report.json")]
           ++ [Event.close (env.join p "coverage_report.json")]) := by
  unfold exportCoverageReportJSON
  simp only [hparse, hdir, hcreate, Option.isNone_none, if_true]

/-- C14 (the code at the failing input): the JSON template does not parse, the report file is
created, `Execute` panics on the nil template, and the file is never closed: the trace holds
the create event and no close event, and no error is returned. -/
theorem exportCoverageReportJSON_leaves_file_open :
    (exportCoverageReportJSON envTemplatesBroken { Files := [] } "out" []).1
      = Outcome.panicked ∧
    Event.create "out/coverage_report.json"
      ∈ (exportCoverageReportJSON envTemplatesBroken { Files := [] } "out" []).2 ∧
    Event.close "out/coverage_report.json"
      ∉ (exportCoverageReportJSON envTemplatesBroken { Files := [] } "out" []).2 := by
  refine ⟨by decide, by decide, by decide⟩
/-! ### Callable-method edits -/

/-- C13: `WhiteListFunction` and `BlackListFunction` are idempotent: applied twice with the same
signature they leave the same callable-method map (indeed the same contract) as applied once,
whatever the map held for the signature before. -/
theorem WhiteList_BlackList_idempotent (c : Contract) (s : String) :
    ((c.WhiteListFunction s).WhiteListFunction s).CallableMethods
      = (c.WhiteListFunction s).CallableMethods ∧
    ((c.BlackListFunction s).BlackListFunction s).CallableMethods
      = (c.BlackListFunction s).CallableMethods ∧
    (c.WhiteListFunction s).WhiteListFunction s = c.WhiteListFunction s ∧
    (c.BlackListFunction s).BlackListFunction s = c.BlackListFunction s := by
  have hw : ∀ (m : MethodMap) (b : Bool),
      MethodMap.set (MethodMap.set m s b) s b = MethodMap.set m s b := by
    intro m b
    funext k
    unfold MethodMap.set
    by_cases hk : k = s <;> simp [hk]
  refine ⟨?_, ?_, ?_, ?_⟩
  · simp only [Contract.WhiteListFunction, Contract.CallableMethods, hw]
  · simp only [Contract.BlackListFunction, Contract.CallableMethods, hw]
  · simp only [Contract.WhiteListFunction, hw]
  · simp only [Contract.BlackListFunction, hw]

/-- C18: `WhiteListFunction(s)` and `BlackListFunction(s)` change only the entry for `s`: every
other signature `t` keeps its entry (present with the same flag, or absent), and the name,
source path, compiled artifact and compilation of the contract are unchanged. -/
theorem WhiteList_BlackList_frame (c : Contract) (s t : String) (h : t ≠ s) :
    (c.WhiteListFunction s).CallableMethods t = c.CallableMethods t ∧
    (c.BlackListFunction s).CallableMethods t = c.CallableMethods t ∧
    (c.WhiteListFunction s).Name = c.Name ∧
    (c.WhiteListFunction s).SourcePath = c.SourcePath ∧
    (c.WhiteListFunction s).CompiledContract = c.CompiledContract ∧
    (c.WhiteListFunction s).Compilation = c.Compilation ∧
    (c.BlackListFunction s).Name = c.Name ∧
    (c.BlackListFunction s).SourcePath = c.SourcePath ∧
    (c.BlackListFunction s).CompiledContract = c.CompiledContract ∧
    (c.BlackListFunction s).Compilation = c.Compilation := by
  refine ⟨?_, ?_, rfl, rfl, rfl, rfl, rfl, rfl, rfl, rfl⟩
  · simp [Contract.WhiteListFunction, Contract.CallableMethods, MethodMap.set, h]
  · simp [Contract.BlackListFunction, Contract.CallableMethods, MethodMap.set, h]

/-- Witness for C18: blacklisting `f()` leaves the entries of `g(uint256)` (present) and of
`k()` (absent) as they were. -/
theorem WhiteList_BlackList_frame_witness :
    (contractT.BlackListFunction "f()").CallableMethods "g(uint256)"
      = contractT.CallableMethods "g(uint256)" ∧
    (contractT.WhiteListFunction "f()").CallableMethods "k()"
      = contractT.CallableMethods "k()" :=
  ⟨(WhiteList_BlackList_frame contractT "f()" "g(uint256)" (by decide)).2.1,
   (WhiteList_BlackList_frame contractT "f()" "k()" (by decide)).1⟩

/-- C15: in both function maps `relativePath` returns the input path unchanged when the working
directory cannot be obtained or when the relative path cannot be computed, and the computed
relative path otherwise; its result is always a path, never an error. -/
theorem relativePath_fallback (getwd : Except GoError String)
    (rel : String → String → Except GoError String) (path : String) :
    (∀ e, getwd = Except.error e →
      relativePath getwd rel path = path ∧ relativePathJSON getwd rel path = path) ∧
    (∀ cwd e, getwd = Except.ok cwd → rel cwd path = Except.error e →
      relativePath getwd rel path = path ∧ relativePathJSON getwd rel path = path) ∧
    (∀ cwd r, getwd = Except.ok cwd → rel cwd path = Except.ok r →
      relativePath getwd rel path = r ∧ relativePathJSON getwd rel path = r) := by
  refine ⟨?_, ?_, ?_⟩
  · intro e h
    simp [relativePath, relativePathJSON, h]
  · intro cwd e h1 h2
    simp [relativePath, relativePathJSON, h1, h2]
  · intro cwd r h1 h2
    simp [relativePath, relativePathJSON, h1, h2]

/-- Witness for C15: no working directory; a relative path that cannot be computed; and a
relative path that can. -/
theorem relativePath_fallback_witness :
    (relativePath (Except.error "getwd: no such file or directory")
        (fun _ p => Except.ok p) "/src/a.sol" = "/src/a.sol" ∧
      relativePathJSON (Except.error "getwd: no such file or directory")
        (fun _ p => Except.ok p) "/src/a.sol" = "/src/a.sol") ∧
    (relativePath (Except.ok "/work")
        (fun _ _ => Except.error "Rel: can't make a.sol relative to /work") "a.sol" = "a.sol" ∧
      relativePathJSON (Except.ok "/work")
        (fun _ _ => Except.error "Rel: can't make a.sol relative to /work") "a.sol" = "a.sol") ∧
    (relativePath (Except.ok "/work") (fun _ _ => Except.ok "src/a.sol") "/work/src/a.sol"
        = "src/a.sol" ∧
      relativePathJSON (Except.ok "/work") (fun _ _ => Except.ok "src/a.sol") "/work/src/a.sol"
        = "src/a.sol") :=
  ⟨(relativePath_fallback (Except.error "getwd: no such file or directory")
      (fun _ p => Except.ok p) "/src/a.sol").1 "getwd: no such file or directory" rfl,
   (relativePath_fallback (Except.ok "/work")
      (fun _ _ => Except.error "Rel: can't make a.sol relative to /work") "a.sol").2.1
      "/work" "Rel: can't make a.sol relative to /work" rfl rfl,
   (relativePath_fallback (Except.ok "/work") (fun _ _ => Except.ok "src/a.sol")
      "/work/src/a.sol").2.2 "/work" "src/a.sol" rfl rfl⟩

/-! ### Matching is independent of the callable-method maps -/

theorem MatchBytecode_edit_frame (isMatch : CompiledContract → List Nat → List Nat → Bool)
    (f : Contract → Contract) (hf : ∀ x, (f x).CompiledContract = x.CompiledContract)
    (c : Contracts) (i : Nat) (hi : i < c.length) (ib rb : List Nat) :
    (c.MatchBytecode isMatch ib rb = none ∧
      Contracts.MatchBytecode isMatch (c.set i (f (c.get ⟨i, hi⟩))) ib rb = none) ∨
    (∃ k, ∃ hk : k < c.length, ∃ hk2 : k < (c.set i (f (c.get ⟨i, hi⟩))).length,
      c.MatchBytecode isMatch ib rb = some (c.get ⟨k, hk⟩) ∧
      Contracts.MatchBytecode isMatch (c.set i (f (c.get ⟨i, hi⟩))) ib rb
        = some ((c.set i (f (c.get ⟨i, hi⟩))).get ⟨k, hk2⟩) ∧
      isMatch (c.get ⟨k, hk⟩).CompiledContract ib rb = true ∧
      ∀ j, ∀ hj : j < c.length, j < k →
        isMatch (c.get ⟨j, hj⟩).CompiledContract ib rb = false) := by
  have hlen : (c.set i (f (c.get ⟨i, hi⟩))).length = c.length := List.length_set _ _ _
  -- the artifact at every position is the same in both registries
  have hcc : ∀ k, ∀ hk : k < c.length, ∀ hk2 : k < (c.set i (f (c.get ⟨i, hi⟩))).length,
      ((c.set i (f (c.get ⟨i, hi⟩))).get ⟨k, hk2⟩).CompiledContract
        = (c.get ⟨k, hk⟩).CompiledContract := by
    intro k hk hk2
    by_cases hik : i = k
    · subst hik
      simp [List.getElem_set_self, hf]
    · simp [List.getElem_set_ne hik]
  cases hm : c.MatchBytecode isMatch ib rb with
  | none =>
    left
    refine ⟨rfl, ?_⟩
    unfold Contracts.MatchBytecode at hm ⊢
    rw [matchLoop_none_iff isMatch c ib rb c.length 0 (by omega)] at hm
    rw [matchLoop_none_iff isMatch _ ib rb _ 0 (by omega)]
    intro k hk _
    rw [hcc k (by rw [hlen] at hk; exact hk) hk]
    exact hm k (by rw [hlen] at hk; exact hk) (Nat.zero_le _)
  | some r =>
    right
    unfold Contracts.MatchBytecode at hm
    rw [matchLoop_some_iff isMatch c ib rb r c.length 0 (by omega)] at hm
    obtain ⟨k, hk, -, hkr, hkm, hmin⟩ := hm
    have hk2 : k < (c.set i (f (c.get ⟨i, hi⟩))).length := by rw [hlen]; exact hk
    refine ⟨k, hk, hk2, by rw [hkr], ?_, hkm, fun j hj hjk => hmin j hj (Nat.zero_le _) hjk⟩
    unfold Contracts.MatchBytecode
    rw [matchLoop_some_iff isMatch _ ib rb _ _ 0 (by omega)]
    refine ⟨k, hk2, Nat.zero_le _, rfl, ?_, ?_⟩
    · rw [hcc k hk hk2]; exact hkm
    · intro j hj _ hjk
      rw [hcc j (by rw [hlen] at hj; exact hj) hj]
      exact hmin j (by rw [hlen] at hj; exact hj) (Nat.zero_le _) hjk

/-- C16: editing the callable methods of the contract at position `i` (by `WhiteListFunction`
or `BlackListFunction`, any signature) does not change what `MatchBytecode` finds: before and
after the edit it returns nil, or it returns the contract at one and the same position `k`,
the least whose artifact matches; and the contract `MatchBytecode` returns is the registry
element itself, callable-method map included. -/
theorem MatchBytecode_ignores_callable_edits
    (isMatch : CompiledContract → List Nat → List Nat → Bool)
    (c : Contracts) (i : Nat) (hi : i < c.length) (s : String)
    (initBytecode runtimeBytecode : List Nat) :
    (∀ edit : Contract → Contract,
      (edit = (fun x => x.WhiteListFunction s) ∨ edit = (fun x => x.BlackListFunction s)) →
      (c.MatchBytecode isMatch initBytecode runtimeBytecode = none ∧
        Contracts.MatchBytecode isMatch (c.set i (edit (c.get ⟨i, hi⟩)))
          initBytecode runtimeBytecode = none) ∨
      (∃ k, ∃ hk : k < c.length, ∃ hk2 : k < (c.set i (edit (c.get ⟨i, hi⟩))).length,
        c.MatchBytecode isMatch initBytecode runtimeBytecode = some (c.get ⟨k, hk⟩) ∧
        Contracts.MatchBytecode isMatch (c.set i (edit (c.get ⟨i, hi⟩)))
            initBytecode runtimeBytecode
          = some ((c.set i (edit (c.get ⟨i, hi⟩))).get ⟨k, hk2⟩) ∧
        isMatch (c.get ⟨k, hk⟩).CompiledContract initBytecode runtimeBytecode = true ∧
        ∀ j, ∀ hj : j < c.length, j < k →
          isMatch (c.get ⟨j, hj⟩).CompiledContract initBytecode runtimeBytecode = false)) ∧
    (∀ r, c.MatchBytecode isMatch initBytecode runtimeBytecode = some r →
      ∃ k, ∃ hk : k < c.length, r = c.get ⟨k, hk⟩ ∧
        r.CallableMethods = (c.get ⟨k, hk⟩).CallableMethods) := by
  constructor
  · intro edit hedit
    apply MatchBytecode_edit_frame isMatch edit _ c i hi
    intro x
    rcases hedit with h | h <;> subst h <;> rfl
  · intro r hr
    unfold Contracts.MatchBytecode at hr
    rw [matchLoop_some_iff isMatch c initBytecode runtimeBytecode r c.length 0 (by omega)] at hr
    obtain ⟨k, hk, -, hkr, -, -⟩ := hr
    exact ⟨k, hk, hkr.symm, by rw [hkr]⟩

/-- Witness for C16: in the registry `[A, B]`, where both match `[1, 2]`, blacklisting a
signature on `A` leaves the match at position 0. -/
theorem MatchBytecode_ignores_callable_edits_witness :
    0 < ([contractA, contractB] : Contracts).length ∧
    Contracts.MatchBytecode exactMatch [contractA.BlackListFunction "f()", contractB] [1, 2] [1, 2]
      = some (contractA.BlackListFunction "f()") := by
  refine ⟨by decide, ?_⟩
  have h := (MatchBytecode_ignores_callable_edits exactMatch [contractA, contractB] 0
    (by decide) "f()" [1, 2] [1, 2]).1 (fun x => x.BlackListFunction "f()") (Or.inr rfl)
  rcases h with ⟨h1, -⟩ | ⟨k, hk, hk2, h1, h2, h3, h4⟩
  · have : Contracts.MatchBytecode exactMatch [contractA, contractB] [1, 2] [1, 2]
        = some contractA := by
      simp [Contracts.MatchBytecode, matchLoop, exactMatch, contractA, contractB, NewContract,
        Contract.CompiledContract, artifactOf]
    rw [this] at h1; cases h1
  · have hk0 : k = 0 := by
      by_contra hne
      have := h4 0 (by decide) (Nat.pos_of_ne_zero hne)
      revert this
      decide
    subst hk0
    exact h2
/-! ### Rounding to float64: monotonicity -/

theorem rne_one (K : Nat) : rne K 1 = K := by
  unfold rne
  simp [Nat.mod_one, Nat.div_one]

theorem rne_tie (N D k : Nat) (hD : 0 < D) (h : 2 * N = (2 * k + 1) * D) :
    rne N D = if k % 2 = 0 then k else k + 1 := by
  have h1 := Nat.div_add_mod N D
  have h2 := Nat.mod_lt N hD
  have e2 : (2 * k + 1) * D = 2 * (D * k) + D := by ring
  have hq : N / D = k := by
    rcases Nat.lt_trichotomy (N / D) k with hlt | heq | hgt
    · exfalso
      have h3 : D * (N / D + 1) ≤ D * k := Nat.mul_le_mul_left D hlt
      have e1 : D * (N / D + 1) = D * (N / D) + D := by ring
      omega
    · exact heq
    · exfalso
      have h3 : D * (k + 1) ≤ D * (N / D) := Nat.mul_le_mul_left D hgt
      have e1 : D * (k + 1) = D * k + D := by ring
      omega
  have hr : 2 * (N % D) = D := by
    rw [hq] at h1
    omega
  unfold rne
  simp only [hq]
  rw [if_neg (by omega), if_neg (by omega)]

theorem rne_mono (N1 D1 N2 D2 : Nat) (h1 : 0 < D1) (h2 : 0 < D2)
    (h : (N1 : ℚ) / (D1 : ℚ) ≤ (N2 : ℚ) / (D2 : ℚ)) : rne N1 D1 ≤ rne N2 D2 := by
  by_contra hcon
  have hlt : rne N2 D2 + 1 ≤ rne N1 D1 := by omega
  have hltq : ((rne N2 D2 : Nat) : ℚ) + 1 ≤ ((rne N1 D1 : Nat) : ℚ) := by exact_mod_cast hlt
  obtain ⟨ha1, ha2⟩ := abs_le.mp (rne_close N1 D1 h1)
  obtain ⟨hb1, hb2⟩ := abs_le.mp (rne_close N2 D2 h2)
  have hD1 : (0 : ℚ) < (D1 : ℚ) := by exact_mod_cast h1
  have hD2 : (0 : ℚ) < (D2 : ℚ) := by exact_mod_cast h2
  have ea : (N1 : ℚ) / (D1 : ℚ) = ((rne N2 D2 : Nat) : ℚ) + 1 / 2 := by linarith
  have eb : (N2 : ℚ) / (D2 : ℚ) = ((rne N2 D2 : Nat) : ℚ) + 1 / 2 := by linarith
  have hN1 : 2 * N1 = (2 * rne N2 D2 + 1) * D1 := by
    have : (2 : ℚ) * (N1 : ℚ) = (2 * ((rne N2 D2 : Nat) : ℚ) + 1) * (D1 : ℚ) := by
      rw [div_eq_iff (ne_of_gt hD1)] at ea
      rw [ea]; ring
    exact_mod_cast this
  have hN2 : 2 * N2 = (2 * rne N2 D2 + 1) * D2 := by
    have : (2 : ℚ) * (N2 : ℚ) = (2 * ((rne N2 D2 : Nat) : ℚ) + 1) * (D2 : ℚ) := by
      rw [div_eq_iff (ne_of_gt hD2)] at eb
      rw [eb]; ring
    exact_mod_cast this
  have e1 := rne_tie N1 D1 (rne N2 D2) h1 hN1
  have e2 := rne_tie N2 D2 (rne N2 D2) h2 hN2
  rw [← e2] at e1
  omega

theorem rne_bounds (N D lo hi : Nat) (hD : 0 < D)
    (hlo : (lo : ℚ) ≤ (N : ℚ) / (D : ℚ)) (hhi : (N : ℚ) / (D : ℚ) ≤ (hi : ℚ)) :
    lo ≤ rne N D ∧ rne N D ≤ hi := by
  constructor
  · have := rne_mono lo 1 N D (by decide) hD (by simpa using hlo)
    rwa [rne_one] at this
  · have := rne_mono N D hi 1 hD (by decide) (by simpa using hhi)
    rwa [rne_one] at this

theorem round_explicit (neg : Bool) (n d : Nat) (hn : 0 < n) (hd : 0 < d)
    (hlo : (1 : ℚ) / 1180591620717411303424 ≤ (n : ℚ) / (d : ℚ))
    (hhi : (n : ℚ) / (d : ℚ) ≤ 1180591620717411303424) :
    F64.round neg n d
      = F64.fin neg (rne (n * 2 ^ (-(ilog2Ratio n d - 52)).toNat)
          (d * 2 ^ (ilog2Ratio n d - 52).toNat)) (ilog2Ratio n d - 52) ∧
    4503599627370496 ≤ rne (n * 2 ^ (-(ilog2Ratio n d - 52)).toNat)
          (d * 2 ^ (ilog2Ratio n d - 52).toNat) ∧
    rne (n * 2 ^ (-(ilog2Ratio n d - 52)).toNat)
          (d * 2 ^ (ilog2Ratio n d - 52).toNat) ≤ 9007199254740992 := by
  obtain ⟨hL1, hL2⟩ := ilog2Ratio_spec n d hn hd
  have h12 : (1 : ℚ) < 2 := by norm_num
  have h2ne : (2 : ℚ) ≠ 0 := by norm_num
  have hlo2 : (2 : ℚ) ^ (-70 : Int) ≤ (n : ℚ) / (d : ℚ) := by
    have : (2 : ℚ) ^ (-70 : Int) = (1 : ℚ) / 1180591620717411303424 := by norm_num
    rw [this]; exact hlo
  have hhi2 : (n : ℚ) / (d : ℚ) < (2 : ℚ) ^ (71 : Int) := by
    have : (2 : ℚ) ^ (71 : Int) = 2361183241434822606848 := by norm_num
    rw [this]; linarith
  have hLlo : -71 ≤ ilog2Ratio n d := by
    have := lt_of_le_of_lt hlo2 hL2
    rw [zpow_lt_zpow_iff_right₀ h12] at this
    omega
  have hLhi : ilog2Ratio n d ≤ 70 := by
    have := lt_of_le_of_lt hL1 hhi2
    rw [zpow_lt_zpow_iff_right₀ h12] at this
    omega
  have he : max (ilog2Ratio n d - 52) (-1074) = ilog2Ratio n d - 52 :=
    max_eq_left (by omega)
  obtain ⟨hDpos, hND⟩ := scaled_ratio n d hd (ilog2Ratio n d - 52)
  have hepos : (0 : ℚ) < (2 : ℚ) ^ (ilog2Ratio n d - 52) := by positivity
  have hsplit : (2 : ℚ) ^ (ilog2Ratio n d)
      = (2 : ℚ) ^ (52 : Int) * (2 : ℚ) ^ (ilog2Ratio n d - 52) := by
    rw [← zpow_add₀ h2ne]; congr 1; ring
  have hsplit2 : (2 : ℚ) ^ (ilog2Ratio n d + 1)
      = (2 : ℚ) ^ (53 : Int) * (2 : ℚ) ^ (ilog2Ratio n d - 52) := by
    rw [← zpow_add₀ h2ne]; congr 1; ring
  have h52 : (2 : ℚ) ^ (52 : Int) = ((4503599627370496 : Nat) : ℚ) := by norm_num
  have h53 : (2 : ℚ) ^ (53 : Int) = ((9007199254740992 : Nat) : ℚ) := by norm_num
  have hbig : ((4503599627370496 : Nat) : ℚ)
      ≤ (n : ℚ) / (d : ℚ) / (2 : ℚ) ^ (ilog2Ratio n d - 52) := by
    rw [le_div_iff₀ hepos, ← h52, ← hsplit]; exact hL1
  have hsmall : (n : ℚ) / (d : ℚ) / (2 : ℚ) ^ (ilog2Ratio n d - 52)
      ≤ ((9007199254740992 : Nat) : ℚ) := by
    rw [div_le_iff₀ hepos, ← h53, ← hsplit2]; exact le_of_lt hL2
  rw [← hND] at hbig hsmall
  obtain ⟨hm1, hm2⟩ := rne_bounds _ _ _ _ hDpos hbig hsmall
  refine ⟨?_, hm1, hm2⟩
  unfold F64.round
  rw [if_neg (by omega)]
  simp only [he]
  rw [if_neg]
  omega

theorem round_mono (n1 d1 n2 d2 : Nat) (hn1 : 0 < n1) (hd1 : 0 < d1) (hn2 : 0 < n2)
    (hd2 : 0 < d2)
    (hlo : (1 : ℚ) / 1180591620717411303424 ≤ (n1 : ℚ) / (d1 : ℚ))
    (hhi : (n2 : ℚ) / (d2 : ℚ) ≤ 1180591620717411303424)
    (h : (n1 : ℚ) / (d1 : ℚ) ≤ (n2 : ℚ) / (d2 : ℚ)) :
    ∃ m1 e1 m2 e2, F64.round false n1 d1 = F64.fin false m1 e1 ∧
      F64.round false n2 d2 = F64.fin false m2 e2 ∧ 0 < m1 ∧ 0 < m2 ∧
      (m1 : ℚ) * (2 : ℚ) ^ e1 ≤ (m2 : ℚ) * (2 : ℚ) ^ e2 := by
  obtain ⟨hr1, hb1, hs1⟩ := round_explicit false n1 d1 hn1 hd1 hlo (le_trans h hhi)
  obtain ⟨hr2, hb2, hs2⟩ := round_explicit false n2 d2 hn2 hd2 (le_trans hlo h) hhi
  refine ⟨_, _, _, _, hr1, hr2, by omega, by omega, ?_⟩
  obtain ⟨hL1a, hL1b⟩ := ilog2Ratio_spec n1 d1 hn1 hd1
  obtain ⟨hL2a, hL2b⟩ := ilog2Ratio_spec n2 d2 hn2 hd2
  have h12 : (1 : ℚ) < 2 := by norm_num
  have h2ne : (2 : ℚ) ≠ 0 := by norm_num
  have hLle : ilog2Ratio n1 d1 ≤ ilog2Ratio n2 d2 := by
    have := lt_of_le_of_lt (le_trans hL1a h) hL2b
    rw [zpow_lt_zpow_iff_right₀ h12] at this
    omega
  rcases eq_or_lt_of_le hLle with heq | hlt
  · -- the same exponent: the significands are ordered
    obtain ⟨hD1, hND1⟩ := scaled_ratio n1 d1 hd1 (ilog2Ratio n1 d1 - 52)
    obtain ⟨hD2, hND2⟩ := scaled_ratio n2 d2 hd2 (ilog2Ratio n2 d2 - 52)
    have hepos : (0 : ℚ) < (2 : ℚ) ^ (ilog2Ratio n2 d2 - 52) := by positivity
    have hm := rne_mono _ _ _ _ hD1 hD2 (by
      rw [hND1, hND2, heq]
      exact div_le_div_of_nonneg_right h (le_of_lt hepos))
    have hexp : (2 : ℚ) ^ (ilog2Ratio n1 d1 - 52) = (2 : ℚ) ^ (ilog2Ratio n2 d2 - 52) := by
      rw [heq]
    rw [hexp]
    apply mul_le_mul_of_nonneg_right _ (le_of_lt hepos)
    exact_mod_cast hm
  · -- a smaller exponent: a power of two lies between the two results
    have hs1q : ((rne (n1 * 2 ^ (-(ilog2Ratio n1 d1 - 52)).toNat)
        (d1 * 2 ^ (ilog2Ratio n1 d1 - 52).toNat) : Nat) : ℚ) ≤ (2 : ℚ) ^ (53 : Int) := by
      have : (2 : ℚ) ^ (53 : Int) = ((9007199254740992 : Nat) : ℚ) := by norm_num
      rw [this]; exact_mod_cast hs1
    have hb2q : (2 : ℚ) ^ (52 : Int) ≤ ((rne (n2 * 2 ^ (-(ilog2Ratio n2 d2 - 52)).toNat)
        (d2 * 2 ^ (ilog2Ratio n2 d2 - 52).toNat) : Nat) : ℚ) := by
      have : (2 : ℚ) ^ (52 : Int) = ((4503599627370496 : Nat) : ℚ) := by norm_num
      rw [this]; exact_mod_cast hb2
    have hp1 : (0 : ℚ) < (2 : ℚ) ^ (ilog2Ratio n1 d1 - 52) := by positivity
    have hp2 : (0 : ℚ) < (2 : ℚ) ^ (ilog2Ratio n2 d2 - 52) := by positivity
    calc ((rne (n1 * 2 ^ (-(ilog2Ratio n1 d1 - 52)).toNat)
          (d1 * 2 ^ (ilog2Ratio n1 d1 - 52).toNat) : Nat) : ℚ)
          * (2 : ℚ) ^ (ilog2Ratio n1 d1 - 52)
        ≤ (2 : ℚ) ^ (53 : Int) * (2 : ℚ) ^ (ilog2Ratio n1 d1 - 52) :=
          mul_le_mul_of_nonneg_right hs1q (le_of_lt hp1)
      _ = (2 : ℚ) ^ (ilog2Ratio n1 d1 + 1) := by
          rw [← zpow_add₀ h2ne]; congr 1; ring
      _ ≤ (2 : ℚ) ^ (ilog2Ratio n2 d2) :=
          zpow_le_zpow_right₀ (le_of_lt h12) (by omega)
      _ = (2 : ℚ) ^ (52 : Int) * (2 : ℚ) ^ (ilog2Ratio n2 d2 - 52) := by
          rw [← zpow_add₀ h2ne]; congr 1; ring
      _ ≤ ((rne (n2 * 2 ^ (-(ilog2Ratio n2 d2 - 52)).toNat)
          (d2 * 2 ^ (ilog2Ratio n2 d2 - 52).toNat) : Nat) : ℚ)
          * (2 : ℚ) ^ (ilog2Ratio n2 d2 - 52) :=
          mul_le_mul_of_nonneg_right hb2q (le_of_lt hp2)

theorem round_pair (n1 d1 n2 d2 : Nat) (hn1 : 0 < n1) (hd1 : 0 < d1) (hn2 : 0 < n2)
    (hd2 : 0 < d2)
    (hlo : (1 : ℚ) / 1180591620717411303424 ≤ (n1 : ℚ) / (d1 : ℚ))
    (hhi : (n2 : ℚ) / (d2 : ℚ) ≤ 1180591620717411303424)
    (h : (n1 : ℚ) / (d1 : ℚ) ≤ (n2 : ℚ) / (d2 : ℚ)) :
    ∃ m1 e1 m2 e2, F64.round false n1 d1 = F64.fin false m1 e1 ∧
      F64.round false n2 d2 = F64.fin false m2 e2 ∧ 0 < m1 ∧ 0 < m2 ∧
      (m1 : ℚ) * (2 : ℚ) ^ e1 ≤ (m2 : ℚ) * (2 : ℚ) ^ e2 ∧
      (n1 : ℚ) / (d1 : ℚ) / 2 ≤ (m1 : ℚ) * (2 : ℚ) ^ e1 ∧
      (m2 : ℚ) * (2 : ℚ) ^ e2 ≤ 2 * ((n2 : ℚ) / (d2 : ℚ)) := by
  obtain ⟨m1, e1, m2, e2, hr1, hr2, hm1, hm2, hle⟩ :=
    round_mono n1 d1 n2 d2 hn1 hd1 hn2 hd2 hlo hhi h
  obtain ⟨m1', e1', hr1', -, herr1⟩ :=
    round_rel_mid false n1 d1 hn1 hd1 hlo (le_trans h hhi)
  obtain ⟨m2', e2', hr2', -, herr2⟩ :=
    round_rel_mid false n2 d2 hn2 hd2 (le_trans hlo h) hhi
  rw [hr1] at hr1'
  rw [hr2] at hr2'
  simp only [F64.fin.injEq, true_and] at hr1' hr2'
  obtain ⟨rfl, rfl⟩ := hr1'
  obtain ⟨rfl, rfl⟩ := hr2'
  have hq1 : (0 : ℚ) ≤ (n1 : ℚ) / (d1 : ℚ) := by positivity
  have hq2 : (0 : ℚ) ≤ (n2 : ℚ) / (d2 : ℚ) := by positivity
  obtain ⟨hA, -⟩ := rel_range _ _ _ hq1 (by norm_num) herr1
  obtain ⟨-, hB⟩ := rel_range _ _ _ hq2 (by norm_num) herr2
  exact ⟨m1, e1, m2, e2, hr1, hr2, hm1, hm2, hle, hA, hB⟩

theorem round_congr (n1 d1 n2 d2 : Nat) (hn1 : 0 < n1) (hd1 : 0 < d1) (hn2 : 0 < n2)
    (hd2 : 0 < d2)
    (hlo : (1 : ℚ) / 1180591620717411303424 ≤ (n1 : ℚ) / (d1 : ℚ))
    (hhi : (n1 : ℚ) / (d1 : ℚ) ≤ 1180591620717411303424)
    (h : (n1 : ℚ) / (d1 : ℚ) = (n2 : ℚ) / (d2 : ℚ)) :
    ∃ m1 e1 m2 e2, F64.round false n1 d1 = F64.fin false m1 e1 ∧
      F64.round false n2 d2 = F64.fin false m2 e2 ∧
      (m1 : ℚ) * (2 : ℚ) ^ e1 = (m2 : ℚ) * (2 : ℚ) ^ e2 := by
  obtain ⟨m1, e1, m2, e2, hr1, hr2, -, -, hle⟩ :=
    round_mono n1 d1 n2 d2 hn1 hd1 hn2 hd2 hlo (by rw [← h]; exact hhi) (le_of_eq h)
  obtain ⟨m2', e2', m1', e1', hr2', hr1', -, -, hge⟩ :=
    round_mono n2 d2 n1 d1 hn2 hd2 hn1 hd1 (by rw [← h]; exact hlo) hhi (le_of_eq h.symm)
  rw [hr1] at hr1'
  rw [hr2] at hr2'
  simp only [F64.fin.injEq, true_and] at hr1' hr2'
  obtain ⟨rfl, rfl⟩ := hr1'
  obtain ⟨rfl, rfl⟩ := hr2'
  exact ⟨m1, e1, m2, e2, hr1, hr2, le_antisymm hle hge⟩

theorem div_fin_eq (ma mb : Nat) (ea eb : Int) (hb : 0 < mb) :
    F64.div (F64.fin false ma ea) (F64.fin false mb eb)
      = F64.round false (ma * 2 ^ ea.toNat * 2 ^ (-eb).toNat)
          (mb * 2 ^ eb.toNat * 2 ^ (-ea).toNat) ∧
    ((ma * 2 ^ ea.toNat * 2 ^ (-eb).toNat : Nat) : ℚ)
        / ((mb * 2 ^ eb.toNat * 2 ^ (-ea).toNat : Nat) : ℚ)
      = (ma : ℚ) * (2 : ℚ) ^ ea / ((mb : ℚ) * (2 : ℚ) ^ eb) := by
  have hbq : (0 : ℚ) < (mb : ℚ) := by exact_mod_cast hb
  constructor
  · simp [F64.div, Nat.pos_iff_ne_zero.mp hb]
  · rcases Nat.eq_zero_or_pos ma with h0 | hpos
    · subst h0; simp
    · have haq : (0 : ℚ) < (ma : ℚ) := by exact_mod_cast hpos
      rw [zpow_two_split ea, zpow_two_split eb]
      push_cast
      field_simp
      ring

theorem mul_fin_eq (ma mb : Nat) (ea eb : Int) :
    F64.mul (F64.fin false ma ea) (F64.fin false mb eb)
      = F64.round false (ma * mb * 2 ^ (ea + eb).toNat) (2 ^ (-(ea + eb)).toNat) ∧
    ((ma * mb * 2 ^ (ea + eb).toNat : Nat) : ℚ) / ((2 ^ (-(ea + eb)).toNat : Nat) : ℚ)
      = (ma : ℚ) * (2 : ℚ) ^ ea * ((mb : ℚ) * (2 : ℚ) ^ eb) := by
  have h2ne : (2 : ℚ) ≠ 0 := by norm_num
  constructor
  · simp [F64.mul]
  · have : (ma : ℚ) * (2 : ℚ) ^ ea * ((mb : ℚ) * (2 : ℚ) ^ eb)
        = (ma : ℚ) * (mb : ℚ) * (2 : ℚ) ^ (ea + eb) := by
      rw [zpow_add₀ h2ne]; ring
    rw [this, zpow_two_split (ea + eb)]
    push_cast
    field_simp

theorem ofInt_pair (x1 x2 : Int) (h0 : 0 < x1) (h1 : x1 ≤ x2) (h2 : x2 < 2 ^ 63) :
    ∃ m1 e1 m2 e2, F64.ofInt x1 = F64.fin false m1 e1 ∧
      F64.ofInt x2 = F64.fin false m2 e2 ∧ 0 < m1 ∧ 0 < m2 ∧
      (m1 : ℚ) * (2 : ℚ) ^ e1 ≤ (m2 : ℚ) * (2 : ℚ) ^ e2 ∧
      (x1 : ℚ) / 2 ≤ (m1 : ℚ) * (2 : ℚ) ^ e1 ∧
      (m2 : ℚ) * (2 : ℚ) ^ e2 ≤ 2 * (x2 : ℚ) := by
  have hc1 : ((x1.natAbs : Nat) : ℚ) = (x1 : ℚ) := by
    rw [← Int.cast_natCast, Int.natAbs_of_nonneg (le_of_lt h0)]
  have hc2 : ((x2.natAbs : Nat) : ℚ) = (x2 : ℚ) := by
    rw [← Int.cast_natCast, Int.natAbs_of_nonneg (by omega)]
  have hx1 : (1 : ℚ) ≤ (x1 : ℚ) := by exact_mod_cast h0
  have hx12 : (x1 : ℚ) ≤ (x2 : ℚ) := by exact_mod_cast h1
  have hx2 : (x2 : ℚ) ≤ 9223372036854775808 := by
    have : x2 ≤ 9223372036854775808 := by omega
    exact_mod_cast this
  have hq1 : ((x1.natAbs : Nat) : ℚ) / ((1 : Nat) : ℚ) = (x1 : ℚ) := by rw [hc1]; simp
  have hq2 : ((x2.natAbs : Nat) : ℚ) / ((1 : Nat) : ℚ) = (x2 : ℚ) := by rw [hc2]; simp
  have := round_pair x1.natAbs 1 x2.natAbs 1 (by omega) (by decide) (by omega) (by decide)
    (by rw [hq1]; linarith) (by rw [hq2]; linarith) (by rw [hq1, hq2]; exact hx12)
  rw [hq1, hq2] at this
  unfold F64.ofInt
  rw [decide_eq_false (by omega : ¬ x1 < 0), decide_eq_false (by omega : ¬ x2 < 0)]
  exact this

/-! ### `percentageInt` on `0 ≤ covered ≤ total` -/

theorem hundred_value : ((7036874417766400 : Nat) : ℚ) * (2 : ℚ) ^ (-46 : Int) = 100 := by
  norm_num

/-- The float64 values `(covered / total) * 100` for two covered counts `0 < x1 ≤ x2 ≤ y`: both
are positive finite numbers, ordered like the counts, and at most 1600. -/
theorem percentage_float_mono (x1 x2 y : Int) (h0 : 0 < x1) (h1 : x1 ≤ x2) (h2 : x2 ≤ y)
    (h3 : y < 2 ^ 63) :
    ∃ mp1 ep1 mp2 ep2,
      F64.mul (F64.div (F64.ofInt x1) (F64.ofInt y)) (F64.ofInt 100) = F64.fin false mp1 ep1 ∧
      F64.mul (F64.div (F64.ofInt x2) (F64.ofInt y)) (F64.ofInt 100) = F64.fin false mp2 ep2 ∧
      (mp1 : ℚ) * (2 : ℚ) ^ ep1 ≤ (mp2 : ℚ) * (2 : ℚ) ^ ep2 ∧
      (mp2 : ℚ) * (2 : ℚ) ^ ep2 ≤ 1600 := by
  have hx1 : (1 : ℚ) ≤ (x1 : ℚ) := by exact_mod_cast h0
  have hx12 : (x1 : ℚ) ≤ (x2 : ℚ) := by exact_mod_cast h1
  have hx2y : (x2 : ℚ) ≤ (y : ℚ) := by exact_mod_cast h2
  have hy2 : (y : ℚ) ≤ 9223372036854775808 := by
    have : y ≤ 9223372036854775808 := by omega
    exact_mod_cast this
  obtain ⟨ma1, ea1, ma2, ea2, hA1, hA2, hma1, hma2, hA12, hAlo, hAhi⟩ :=
    ofInt_pair x1 x2 h0 h1 (by omega)
  obtain ⟨mb, eb, mb', eb', hB, hB', hmb, -, -, hBlo, hBhi⟩ :=
    ofInt_pair y y (by omega) (le_refl y) h3
  rw [hB] at hB'
  simp only [F64.fin.injEq, true_and] at hB'
  obtain ⟨rfl, rfl⟩ := hB'
  have hvb : (0 : ℚ) < (mb : ℚ) * (2 : ℚ) ^ eb := by linarith
  -- the quotients
  obtain ⟨hC1, hR1⟩ := div_fin_eq ma1 mb ea1 eb hmb
  obtain ⟨hC2, hR2⟩ := div_fin_eq ma2 mb ea2 eb hmb
  have hq1lo : (1 : ℚ) / 73786976294838206464
      ≤ (ma1 : ℚ) * (2 : ℚ) ^ ea1 / ((mb : ℚ) * (2 : ℚ) ^ eb) := by
    rw [le_div_iff₀ hvb]; linarith
  have hq2hi : (ma2 : ℚ) * (2 : ℚ) ^ ea2 / ((mb : ℚ) * (2 : ℚ) ^ eb) ≤ 4 := by
    rw [div_le_iff₀ hvb]; linarith
  obtain ⟨mc1, ec1, mc2, ec2, hrC1, hrC2, hmc1, hmc2, hC12, hClo, hChi⟩ :=
    round_pair (ma1 * 2 ^ ea1.toNat * 2 ^ (-eb).toNat) (mb * 2 ^ eb.toNat * 2 ^ (-ea1).toNat)
      (ma2 * 2 ^ ea2.toNat * 2 ^ (-eb).toNat) (mb * 2 ^ eb.toNat * 2 ^ (-ea2).toNat)
      (by positivity) (by positivity) (by positivity) (by positivity)
      (by rw [hR1]; linarith) (by rw [hR2]; linarith)
      (by rw [hR1, hR2]; exact div_le_div_of_nonneg_right hA12 (le_of_lt hvb))
  rw [hR1] at hClo
  rw [hR2] at hChi
  -- times 100
  obtain ⟨hP1, hS1⟩ := mul_fin_eq mc1 7036874417766400 ec1 (-46)
  obtain ⟨hP2, hS2⟩ := mul_fin_eq mc2 7036874417766400 ec2 (-46)
  rw [hundred_value] at hS1 hS2
  obtain ⟨mp1, ep1, mp2, ep2, hrP1, hrP2, -, -, hP12, -, hPhi⟩ :=
    round_pair (mc1 * 7036874417766400 * 2 ^ (ec1 + -46).toNat) (2 ^ (-(ec1 + -46)).toNat)
      (mc2 * 7036874417766400 * 2 ^ (ec2 + -46).toNat) (2 ^ (-(ec2 + -46)).toNat)
      (by positivity) (by positivity) (by positivity) (by positivity)
      (by rw [hS1]; linarith) (by rw [hS2]; linarith)
      (by rw [hS1, hS2]; linarith)
  rw [hS2] at hPhi
  refine ⟨mp1, ep1, mp2, ep2, ?_, ?_, hP12, by linarith⟩
  · rw [hA1, hB, hC1, hrC1, ofInt_hundred, hP1, hrP1]
  · rw [hA2, hB, hC2, hrC2, ofInt_hundred, hP2, hrP2]

theorem percentageInt_mono_pos (x1 x2 y : Int) (h0 : 0 < x1) (h1 : x1 ≤ x2) (h2 : x2 ≤ y)
    (h3 : y < 2 ^ 63) :
    0 ≤ percentageInt x1 y ∧ percentageInt x1 y ≤ percentageInt x2 y := by
  obtain ⟨mp1, ep1, mp2, ep2, hP1, hP2, hle, hhi⟩ := percentage_float_mono x1 x2 y h0 h1 h2 h3
  have hne : y ≠ 0 := by omega
  have hv1 : percentageInt x1 y = F64.toInt (F64.Round (F64.fin false mp1 ep1)) := by
    simp only [percentageInt, percentageIntWith, hne, if_false, hP1]
  have hv2 : percentageInt x2 y = F64.toInt (F64.Round (F64.fin false mp2 ep2)) := by
    simp only [percentageInt, percentageIntWith, hne, if_false, hP2]
  obtain ⟨ha1, ha2⟩ := toInt_Round_spec mp1 ep1 (by linarith)
  obtain ⟨hb1, hb2⟩ := toInt_Round_spec mp2 ep2 (by linarith)
  have hpos : (0 : ℚ) ≤ (mp1 : ℚ) * (2 : ℚ) ^ ep1 := by positivity
  rw [hv1, hv2]
  constructor
  · have : (-1 : ℚ) < ((F64.toInt (F64.Round (F64.fin false mp1 ep1)) : Int) : ℚ) := by
      linarith
    have h' : (-1 : Int) < F64.toInt (F64.Round (F64.fin false mp1 ep1)) := by
      exact_mod_cast this
    omega
  · have : ((F64.toInt (F64.Round (F64.fin false mp1 ep1)) : Int) : ℚ)
        < ((F64.toInt (F64.Round (F64.fin false mp2 ep2)) : Int) : ℚ) + 1 := by
      linarith
    have h' : F64.toInt (F64.Round (F64.fin false mp1 ep1))
        < F64.toInt (F64.Round (F64.fin false mp2 ep2)) + 1 := by
      exact_mod_cast this
    omega

theorem round_one : F64.round false 1 1 = F64.fin false 4503599627370496 (-52) := by decide

theorem round_hundred : F64.round false 100 1 = F64.fin false 7036874417766400 (-46) := by
  decide

theorem percentageInt_full (y : Int) (h0 : 0 < y) (h3 : y < 2 ^ 63) :
    percentageInt y y = 100 := by
  obtain ⟨mb, eb, hB, hmb, hBerr⟩ := ofInt_pos_rel y h0 h3
  have hy1 : (1 : ℚ) ≤ (y : ℚ) := by exact_mod_cast h0
  obtain ⟨hBlo, -⟩ := rel_range _ _ _ (by linarith) (by norm_num) hBerr
  have hvb : (0 : ℚ) < (mb : ℚ) * (2 : ℚ) ^ eb := by linarith
  -- the quotient is exactly one
  obtain ⟨hC, hR⟩ := div_fin_eq mb mb eb eb hmb
  rw [div_self (ne_of_gt hvb)] at hR
  obtain ⟨m1, e1, mc, ec, h11, hrC, hval⟩ := round_congr 1 1
    (mb * 2 ^ eb.toNat * 2 ^ (-eb).toNat) (mb * 2 ^ eb.toNat * 2 ^ (-eb).toNat)
    (by decide) (by decide) (by positivity) (by positivity) (by norm_num) (by norm_num) (by rw [hR]; norm_num)
  rw [round_one] at h11
  simp only [F64.fin.injEq, true_and] at h11
  obtain ⟨rfl, rfl⟩ := h11
  have hvc : (mc : ℚ) * (2 : ℚ) ^ ec = 1 := by
    rw [← hval]; norm_num
  have hmc : 0 < mc := by
    rcases Nat.eq_zero_or_pos mc with h | h
    · subst h; simp at hvc
    · exact h
  -- the product is exactly one hundred
  obtain ⟨hP, hS⟩ := mul_fin_eq mc 7036874417766400 ec (-46)
  rw [hundred_value, hvc] at hS
  obtain ⟨m2, e2, mp, ep, h22, hrP, hval2⟩ := round_congr 100 1
    (mc * 7036874417766400 * 2 ^ (ec + -46).toNat) (2 ^ (-(ec + -46)).toNat)
    (by decide) (by decide) (by positivity) (by positivity) (by norm_num) (by norm_num) (by rw [hS]; norm_num)
  rw [round_hundred] at h22
  simp only [F64.fin.injEq, true_and] at h22
  obtain ⟨rfl, rfl⟩ := h22
  have hvp : (mp : ℚ) * (2 : ℚ) ^ ep = 100 := by
    rw [← hval2]; exact hundred_value
  have hne : y ≠ 0 := by omega
  have hv : percentageInt y y = F64.toInt (F64.Round (F64.fin false mp ep)) := by
    simp only [percentageInt, percentageIntWith, hne, if_false, hB, hC, hrC, ofInt_hundred, hP,
      hrP]
  obtain ⟨ha1, ha2⟩ := toInt_Round_spec mp ep (by rw [hvp]; norm_num)
  rw [hvp] at ha1 ha2
  rw [hv]
  have hlo : (99 : Int) < F64.toInt (F64.Round (F64.fin false mp ep)) := by
    have : ((99 : Int) : ℚ) < ((F64.toInt (F64.Round (F64.fin false mp ep)) : Int) : ℚ) := by
      push_cast; linarith
    exact_mod_cast this
  have hhi : F64.toInt (F64.Round (F64.fin false mp ep)) < (101 : Int) := by
    have : ((F64.toInt (F64.Round (F64.fin false mp ep)) : Int) : ℚ) < ((101 : Int) : ℚ) := by
      push_cast; linarith
    exact_mod_cast this
  omega

/-- C19: for every `int` `total ≥ 0` and every `covered` with `0 ≤ covered ≤ total`,
`percentageInt(covered, total)` lies in `0..100`, is 100 when `covered == total`, and for
`total > 0` does not decrease when `covered` grows (up to `total`). -/
theorem percentageInt_range_and_monotone (covered total : Int) (h0 : 0 ≤ covered)
    (h1 : covered ≤ total) (h2 : total < 2 ^ 63) :
    (0 ≤ percentageInt covered total ∧ percentageInt covered total ≤ 100) ∧
    (covered = total → percentageInt covered total = 100) ∧
    (∀ covered2 : Int, covered ≤ covered2 → covered2 ≤ total → 0 < total →
      percentageInt covered total ≤ percentageInt covered2 total) := by
  rcases eq_or_lt_of_le (le_trans h0 h1) with ht | ht
  · -- total = 0, hence covered = 0
    have hc : covered = 0 := by omega
    subst hc
    rw [← ht]
    have h100 : percentageInt 0 0 = 100 := by simp [percentageInt, percentageIntWith]
    refine ⟨by rw [h100]; omega, fun _ => h100, ?_⟩
    intro covered2 _ _ hpos
    omega
  · have hfull := percentageInt_full total ht h2
    rcases eq_or_lt_of_le h0 with hc | hc
    · -- covered = 0 < total
      subst hc
      have hz := percentageInt_zero_covered total ht h2
      refine ⟨by rw [hz]; omega, fun h => by omega, ?_⟩
      intro covered2 hc2 hc2t _
      rw [hz]
      rcases eq_or_lt_of_le hc2 with h | h
      · rw [← h, hz]
      · exact (percentageInt_mono_pos covered2 covered2 total h (le_refl _) hc2t h2).1
    · obtain ⟨hnn, hle⟩ := percentageInt_mono_pos covered total total hc h1 (le_refl _) h2
      rw [hfull] at hle
      refine ⟨⟨hnn, hle⟩, fun h => by rw [h]; exact hfull, ?_⟩
      intro covered2 hc2 hc2t _
      exact (percentageInt_mono_pos covered covered2 total hc hc2 hc2t h2).2

/-- Witness for C19: two, four and six lines covered out of six. -/
theorem percentageInt_range_and_monotone_witness :
    ((0 : Int) ≤ 2 ∧ (2 : Int) ≤ 6 ∧ (6 : Int) < 2 ^ 63) ∧
    (0 ≤ percentageInt 2 6 ∧ percentageInt 2 6 ≤ 100) ∧
    percentageInt 6 6 = 100 ∧
    percentageInt 2 6 ≤ percentageInt 4 6 :=
  ⟨⟨by decide, by decide, by decide⟩,
   (percentageInt_range_and_monotone 2 6 (by decide) (by decide) (by decide)).1,
   (percentageInt_range_and_monotone 6 6 (by decide) (by decide) (by decide)).2.1 rfl,
   (percentageInt_range_and_monotone 2 6 (by decide) (by decide) (by decide)).2.2 4
     (by decide) (by decide) (by decide)⟩

/-! ### `percentageStr`: what is printed -/

theorem formatFixed_fin (prec : Nat) (neg : Bool) (m : Nat) (e : Int) :
    formatFixed prec (F64.fin neg m e)
      = renderFixed neg prec (rne (m * 2 ^ e.toNat * 10 ^ prec) (2 ^ (-e).toNat)) := rfl

theorem leftPad_length (prec k : Nat) (hp : 0 < prec) (hk : k < 10 ^ prec) :
    (leftPad prec (toString k)).length = prec := by
  have hlen : (toString k).length ≤ prec := Nat.repr_length k prec hp hk
  unfold leftPad
  rw [String.length_append, String.length_mk, List.length_replicate]
  omega

theorem scaled_decimal (m : Nat) (e : Int) (prec : Nat) :
    0 < 2 ^ (-e).toNat ∧
    ((m * 2 ^ e.toNat * 10 ^ prec : Nat) : ℚ) / ((2 ^ (-e).toNat : Nat) : ℚ)
      = (m : ℚ) * (2 : ℚ) ^ e * (10 : ℚ) ^ prec := by
  constructor
  · positivity
  · rw [zpow_two_split e]
    push_cast
    field_simp

theorem percentage_float_zero (total : Int) (h2 : 0 < total) (h3 : total < 2 ^ 63) :
    F64.mul (F64.div (F64.ofInt 0) (F64.ofInt total)) (F64.ofInt 100) = F64.fin false 0 0 := by
  obtain ⟨mb, eb, hB, hmb, -⟩ := ofInt_pos_rel total h2 h3
  have hA : F64.ofInt 0 = F64.fin false 0 0 := by decide
  have hmb0 : mb ≠ 0 := by omega
  simp [hA, hB, ofInt_hundred, F64.div, F64.mul, F64.round, hmb0]

theorem round_rel_wide (neg : Bool) (n d : Nat) (hn : 0 < n) (hd : 0 < d)
    (hlo : (1 : ℚ) / 1267650600228229401496703205376 ≤ (n : ℚ) / (d : ℚ))
    (hhi : (n : ℚ) / (d : ℚ) ≤ 1267650600228229401496703205376) :
    ∃ m e, F64.round neg n d = F64.fin neg m e ∧ 0 < m ∧
      |(m : ℚ) * (2 : ℚ) ^ e - (n : ℚ) / (d : ℚ)|
        ≤ (n : ℚ) / (d : ℚ) * (1 / 9007199254740992) := by
  have h1 : (1 : ℚ) ≤ 2 := by norm_num
  apply round_rel neg n d hn hd
  · calc (2 : ℚ) ^ (-1022 : Int) ≤ (2 : ℚ) ^ (-100 : Int) :=
          zpow_le_zpow_right₀ h1 (by norm_num)
      _ = (1 : ℚ) / 1267650600228229401496703205376 := by norm_num
      _ ≤ (n : ℚ) / (d : ℚ) := hlo
  · calc (n : ℚ) / (d : ℚ) ≤ 1267650600228229401496703205376 := hhi
      _ = (2 : ℚ) ^ (100 : Int) := by norm_num
      _ < (2 : ℚ) ^ (1023 : Int) := zpow_lt_zpow_right₀ (by norm_num) (by norm_num)

theorem ofInt_abs_rel (x : Int) (hx0 : x ≠ 0) (hx1 : -2 ^ 63 ≤ x) (hx2 : x < 2 ^ 63) :
    ∃ m e, F64.ofInt x = F64.fin (decide (x < 0)) m e ∧ 0 < m ∧
      |(m : ℚ) * (2 : ℚ) ^ e - (|(x : ℚ)|)| ≤ |(x : ℚ)| * (1 / 9007199254740992) := by
  have hn : 0 < x.natAbs := Int.natAbs_pos.mpr hx0
  have hcast : ((x.natAbs : Nat) : ℚ) = |(x : ℚ)| := by
    rw [Nat.cast_natAbs, Int.cast_abs]
  have hlo : (1 : ℚ) ≤ |(x : ℚ)| := by
    rw [← hcast]
    exact_mod_cast hn
  have hhi : |(x : ℚ)| ≤ 9223372036854775808 := by
    rw [abs_le]
    constructor
    · have : (-9223372036854775808 : Int) ≤ x := by omega
      exact_mod_cast this
    · have : x ≤ (9223372036854775808 : Int) := by omega
      exact_mod_cast this
  have hq : ((x.natAbs : Nat) : ℚ) / ((1 : Nat) : ℚ) = |(x : ℚ)| := by
    rw [hcast]; simp
  have := round_rel_wide (decide (x < 0)) x.natAbs 1 hn (by decide)
    (by rw [hq]; linarith) (by rw [hq]; linarith)
  rw [hq] at this
  exact this

theorem div_signed_rel (s t : Bool) (ma mb : Nat) (ea eb : Int) (hb : 0 < mb) (ha : 0 < ma)
    (hlo : (1 : ℚ) / 1267650600228229401496703205376
      ≤ (ma : ℚ) * (2 : ℚ) ^ ea / ((mb : ℚ) * (2 : ℚ) ^ eb))
    (hhi : (ma : ℚ) * (2 : ℚ) ^ ea / ((mb : ℚ) * (2 : ℚ) ^ eb)
      ≤ 1267650600228229401496703205376) :
    ∃ m e, F64.div (F64.fin s ma ea) (F64.fin t mb eb) = F64.fin (xor s t) m e ∧ 0 < m ∧
      |(m : ℚ) * (2 : ℚ) ^ e - (ma : ℚ) * (2 : ℚ) ^ ea / ((mb : ℚ) * (2 : ℚ) ^ eb)|
        ≤ (ma : ℚ) * (2 : ℚ) ^ ea / ((mb : ℚ) * (2 : ℚ) ^ eb) * (1 / 9007199254740992) := by
  have hq := (div_fin_eq ma mb ea eb hb).2
  have := round_rel_wide (xor s t) (ma * 2 ^ ea.toNat * 2 ^ (-eb).toNat)
    (mb * 2 ^ eb.toNat * 2 ^ (-ea).toNat) (by positivity) (by positivity)
    (by rw [hq]; exact hlo) (by rw [hq]; exact hhi)
  rw [hq] at this
  have hdiv : F64.div (F64.fin s ma ea) (F64.fin t mb eb)
      = F64.round (xor s t) (ma * 2 ^ ea.toNat * 2 ^ (-eb).toNat)
          (mb * 2 ^ eb.toNat * 2 ^ (-ea).toNat) := by
    simp [F64.div, Nat.pos_iff_ne_zero.mp hb]
  rw [hdiv]
  exact this

theorem mul_signed_rel (s t : Bool) (ma mb : Nat) (ea eb : Int) (ha : 0 < ma) (hb : 0 < mb)
    (hlo : (1 : ℚ) / 1267650600228229401496703205376
      ≤ (ma : ℚ) * (2 : ℚ) ^ ea * ((mb : ℚ) * (2 : ℚ) ^ eb))
    (hhi : (ma : ℚ) * (2 : ℚ) ^ ea * ((mb : ℚ) * (2 : ℚ) ^ eb)
      ≤ 1267650600228229401496703205376) :
    ∃ m e, F64.mul (F64.fin s ma ea) (F64.fin t mb eb) = F64.fin (xor s t) m e ∧ 0 < m ∧
      |(m : ℚ) * (2 : ℚ) ^ e - (ma : ℚ) * (2 : ℚ) ^ ea * ((mb : ℚ) * (2 : ℚ) ^ eb)|
        ≤ (ma : ℚ) * (2 : ℚ) ^ ea * ((mb : ℚ) * (2 : ℚ) ^ eb) * (1 / 9007199254740992) := by
  have hq := (mul_fin_eq ma mb ea eb).2
  have := round_rel_wide (xor s t) (ma * mb * 2 ^ (ea + eb).toNat)
    (2 ^ (-(ea + eb)).toNat) (by positivity) (by positivity)
    (by rw [hq]; exact hlo) (by rw [hq]; exact hhi)
  rw [hq] at this
  have hmul : F64.mul (F64.fin s ma ea) (F64.fin t mb eb)
      = F64.round (xor s t) (ma * mb * 2 ^ (ea + eb).toNat) (2 ^ (-(ea + eb)).toNat) := by
    simp [F64.mul]
  rw [hmul]
  exact this

/-- The float64 value `(covered / total) * 100` computed by `percentageStr`, for nonzero
`int` arguments of either sign: a finite number, negative exactly when the signs differ, whose
magnitude is within relative error `5.02 * 2^-53` of the exact `|covered| / |total| * 100`. -/
theorem percentage_float_close_signed (covered total : Int) (hc0 : covered ≠ 0)
    (hc1 : -2 ^ 63 ≤ covered) (hc2 : covered < 2 ^ 63) (ht0 : total ≠ 0)
    (ht1 : -2 ^ 63 ≤ total) (ht2 : total < 2 ^ 63) :
    ∃ mp ep, F64.mul (F64.div (F64.ofInt covered) (F64.ofInt total)) (F64.ofInt 100)
        = F64.fin (xor (decide (covered < 0)) (decide (total < 0))) mp ep ∧
      |(mp : ℚ) * (2 : ℚ) ^ ep - |(covered : ℚ)| / |(total : ℚ)| * 100|
        ≤ |(covered : ℚ)| / |(total : ℚ)| * 100 * (502 / 100 * (1 / 9007199254740992)) := by
  obtain ⟨ma, ea, hA, hma, hAerr⟩ := ofInt_abs_rel covered hc0 hc1 hc2
  obtain ⟨mb, eb, hB, hmb, hBerr⟩ := ofInt_abs_rel total ht0 ht1 ht2
  have hx1 : (1 : ℚ) ≤ |(covered : ℚ)| := by
    have : (1 : Int) ≤ |covered| := Int.one_le_abs hc0
    have h2 : ((1 : Int) : ℚ) ≤ ((|covered| : Int) : ℚ) := by exact_mod_cast this
    rw [Int.cast_abs] at h2
    simpa using h2
  have hy1 : (1 : ℚ) ≤ |(total : ℚ)| := by
    have : (1 : Int) ≤ |total| := Int.one_le_abs ht0
    have h2 : ((1 : Int) : ℚ) ≤ ((|total| : Int) : ℚ) := by exact_mod_cast this
    rw [Int.cast_abs] at h2
    simpa using h2
  have hx2 : |(covered : ℚ)| ≤ 9223372036854775808 := by
    rw [abs_le]
    constructor
    · have : (-9223372036854775808 : Int) ≤ covered := by omega
      exact_mod_cast this
    · have : covered ≤ (9223372036854775808 : Int) := by omega
      exact_mod_cast this
  have hy2 : |(total : ℚ)| ≤ 9223372036854775808 := by
    rw [abs_le]
    constructor
    · have : (-9223372036854775808 : Int) ≤ total := by omega
      exact_mod_cast this
    · have : total ≤ (9223372036854775808 : Int) := by omega
      exact_mod_cast this
  have hx : (0 : ℚ) < |(covered : ℚ)| := by linarith
  have hy : (0 : ℚ) < |(total : ℚ)| := by linarith
  have hq0 : 0 < |(covered : ℚ)| / |(total : ℚ)| := div_pos hx hy
  have hqlo : (1 : ℚ) / 9223372036854775808 ≤ |(covered : ℚ)| / |(total : ℚ)| := by
    rw [div_le_div_iff₀ (by norm_num) hy]; linarith
  have hqhi : |(covered : ℚ)| / |(total : ℚ)| ≤ 9223372036854775808 := by
    rw [div_le_iff₀ hy]
    calc |(covered : ℚ)| ≤ 9223372036854775808 * 1 := by linarith
      _ ≤ 9223372036854775808 * |(total : ℚ)| :=
          mul_le_mul_of_nonneg_left hy1 (by norm_num)
  -- a / b
  obtain ⟨hbpos, hDerr⟩ := rel_div |(covered : ℚ)| |(total : ℚ)| ((ma : ℚ) * (2 : ℚ) ^ ea)
    ((mb : ℚ) * (2 : ℚ) ^ eb) (1 / 9007199254740992) hx hy (by norm_num) (by norm_num)
    hAerr hBerr
  obtain ⟨hD1, hD2⟩ := rel_range _ _ _ (le_of_lt hq0) (by norm_num) hDerr
  obtain ⟨mc, ec, hC, hmc, hCerr⟩ := div_signed_rel (decide (covered < 0))
    (decide (total < 0)) ma mb ea eb hmb hma (by linarith) (by linarith)
  have hCtot := rel_weaken _ _ _ (401 / 100 * (1 / 9007199254740992)) (le_of_lt hq0)
    (by norm_num)
    (rel_trans (|(covered : ℚ)| / |(total : ℚ)|)
      ((ma : ℚ) * (2 : ℚ) ^ ea / ((mb : ℚ) * (2 : ℚ) ^ eb)) ((mc : ℚ) * (2 : ℚ) ^ ec)
      (3 * (1 / 9007199254740992)) (1 / 9007199254740992) (by norm_num) hDerr hCerr)
  obtain ⟨hC1, hC2⟩ := rel_range _ _ _ (le_of_lt hq0) (by norm_num) hCtot
  -- times 100
  obtain ⟨mp, ep, hP, hmp, hPerr⟩ := mul_signed_rel
    (xor (decide (covered < 0)) (decide (total < 0))) false mc 7036874417766400 ec (-46) hmc
    (by norm_num) (by rw [hundred_value]; linarith) (by rw [hundred_value]; linarith)
  rw [hundred_value] at hPerr
  have hC100 := rel_scale _ _ 100 _ (by norm_num) hCtot
  have hPtot := rel_weaken _ _ _ (502 / 100 * (1 / 9007199254740992))
    (le_of_lt (mul_pos hq0 (by norm_num : (0 : ℚ) < 100))) (by norm_num)
    (rel_trans (|(covered : ℚ)| / |(total : ℚ)| * 100)
      ((mc : ℚ) * (2 : ℚ) ^ ec * 100) ((mp : ℚ) * (2 : ℚ) ^ ep) _
      (1 / 9007199254740992) (by norm_num) hC100 hPerr)
  refine ⟨mp, ep, ?_, hPtot⟩
  rw [hA, hB, hC, ofInt_hundred, hP, Bool.xor_false]

theorem percentage_float_zero_signed (total : Int) (ht0 : total ≠ 0) (ht1 : -2 ^ 63 ≤ total)
    (ht2 : total < 2 ^ 63) :
    F64.mul (F64.div (F64.ofInt 0) (F64.ofInt total)) (F64.ofInt 100)
      = F64.fin (decide (total < 0)) 0 0 := by
  obtain ⟨mb, eb, hB, hmb, -⟩ := ofInt_abs_rel total ht0 ht1 ht2
  have hA : F64.ofInt 0 = F64.fin false 0 0 := by decide
  have hmb0 : mb ≠ 0 := by omega
  simp [hA, hB, ofInt_hundred, F64.div, F64.mul, F64.round, hmb0]

theorem percentageStr_eq_formatFixed (badVerb : Int → F64 → String) (verbV : F64 → String)
    (x y decimals : Int) (hne : ¬ (x = 0 ∧ y = 0)) (hd : 0 ≤ decimals)
    (hd2 : decimals ≤ 10000009) :
    percentageStr badVerb verbV x y decimals
      = formatFixed decimals.toNat
          (F64.mul (F64.div (F64.ofInt x) (F64.ofInt y)) (F64.ofInt 100)) := by
  unfold percentageStr sprintfPrecF
  rw [if_neg hne, if_neg (by omega), if_neg (by omega)]

/-- C6 (counterexample): with one line covered out of zero, `percentageStr` at two decimals
prints `+Inf`, not `100.00`; and with a precision of 10000010 digits `fmt` gives up on the
format, so that even for `covered == 0` and `total == 0` a diagnostic is printed instead of
the number. -/
theorem percentageStr_zero_total_counterexample :
    percentageStr noDiag noVerbV 1 0 2 = "+Inf" ∧
    percentageStr noDiag noVerbV 1 0 2 ≠ "100.00" ∧
    percentageStr noDiag (fun _ => "100") 0 0 10000010 = "%!(NOVERB)%!(EXTRA float64=100)" := by
  refine ⟨by decide, by decide, by decide⟩

/-- C6 (amended): with `covered == 0` and `total == 0`, `percentageStr` returns 100 formatted to
`decimals` places for every `decimals` from 0 to 10000009: the digits `100`, followed for
`decimals > 0` by a point and `decimals` zeros; for two decimals this is `100.00`. -/
theorem percentageStr_zero_zero (badVerb : Int → F64 → String) (verbV : F64 → String)
    (decimals : Int) (h : 0 ≤ decimals) (h2 : decimals ≤ 10000009) :
    percentageStr badVerb verbV 0 0 decimals
      = "100" ++ (if decimals.toNat = 0 then ""
          else "." ++ String.mk (List.replicate decimals.toNat '0')) ∧
    percentageStr badVerb verbV 0 0 2 = "100.00" := by
  have key : ∀ d : Int, 0 ≤ d → d ≤ 10000009 → percentageStr badVerb verbV 0 0 d
      = "100" ++ (if d.toNat = 0 then "" else "." ++ String.mk (List.replicate d.toNat '0')) := by
    intro d hd hd2
    unfold percentageStr sprintfPrecF
    rw [if_pos ⟨rfl, rfl⟩, if_neg (by omega), if_neg (by omega), ofInt_hundred]
    exact formatFixed_hundred d.toNat
  refine ⟨key decimals h h2, ?_⟩
  rw [key 2 (by decide) (by decide)]
  decide

/-- Witness for C6 (amended): three decimals. -/
theorem percentageStr_zero_zero_witness :
    ((0 : Int) ≤ 3 ∧ (3 : Int) ≤ 10000009) ∧
    percentageStr noDiag noVerbV 0 0 3 = "100.000" :=
  ⟨⟨by decide, by decide⟩, by
    have h := (percentageStr_zero_zero noDiag noVerbV 3 (by decide) (by decide)).1
    rw [h]
    decide⟩

set_option maxRecDepth 100000 in
/-- C17 (counterexample): one line covered out of three, printed with twenty decimals. The
exact percentage rounded to twenty decimals is `33.33333333333333333333` (no tie is involved,
so every rounding rule gives it); the code prints the digits of the float64 product. Two
further departures: with a precision of 10000010 digits `fmt` gives up on the format and
prints a diagnostic; and zero lines out of a negative total print as `-0.00`, the float64
quotient being the negative zero. -/
theorem percentageStr_exact_rendering_counterexample :
    percentageStr noDiag noVerbV 1 3 20 = "33.33333333333332859638" ∧
    specPercentageStr 1 3 20 = "33.33333333333333333333" ∧
    percentageStr noDiag noVerbV 1 3 20 ≠ specPercentageStr 1 3 20 ∧
    percentageStr noDiag (fun _ => "33.33333333333333") 1 3 10000010
      = "%!(NOVERB)%!(EXTRA float64=33.33333333333333)" ∧
    percentageStr noDiag noVerbV 0 (-5) 2 = "-0.00" ∧
    specPercentageStr 0 (-5) 2 = "0.00" := by
  refine ⟨by decide, by decide, by decide, by decide, by decide, by decide⟩

set_option maxRecDepth 100000 in
/-- C17 (amended): for every `int` `covered` and `total` with `total ≠ 0` and every `decimals`
from 0 to 10000009, `percentageStr` is a decimal rendering with exactly `decimals` fractional
digits: it carries a minus sign exactly when one of `covered < 0`, `total < 0` holds and the
other does not, and its digits are those of a number `n / 10^decimals` that lies within half
a unit of the last printed digit, plus the float64 rounding error (relative `5.02 * 2^-53`),
of the exact magnitude `|covered / total * 100|`; and `percentageStr(50, 100, 2) = "50.00"`. -/
theorem percentageStr_rendering (badVerb : Int → F64 → String) (verbV : F64 → String)
    (covered total decimals : Int)
    (hc1 : -2 ^ 63 ≤ covered) (hc2 : covered < 2 ^ 63)
    (ht1 : -2 ^ 63 ≤ total) (ht2 : total < 2 ^ 63) (ht0 : total ≠ 0)
    (hd : 0 ≤ decimals) (hd2 : decimals ≤ 10000009) :
    (∃ n : Nat,
      percentageStr badVerb verbV covered total decimals
        = renderFixed (xor (decide (covered < 0)) (decide (total < 0))) decimals.toNat n ∧
      (0 < decimals.toNat →
        (leftPad decimals.toNat (toString (n % 10 ^ decimals.toNat))).length
          = decimals.toNat) ∧
      |(n : ℚ) - |(covered : ℚ) / (total : ℚ) * 100| * (10 : ℚ) ^ decimals.toNat|
        ≤ 1 / 2 + |(covered : ℚ) / (total : ℚ) * 100| * (10 : ℚ) ^ decimals.toNat
            * (502 / 100 * (1 / 9007199254740992))) ∧
    percentageStr badVerb verbV 50 100 2 = "50.00" := by
  have hne : ¬ (covered = 0 ∧ total = 0) := fun h => ht0 h.2
  have hfrac : ∀ n : Nat, 0 < decimals.toNat →
      (leftPad decimals.toNat (toString (n % 10 ^ decimals.toNat))).length
        = decimals.toNat := by
    intro n hp
    exact leftPad_length _ _ hp (Nat.mod_lt _ (by positivity))
  have habs : |(covered : ℚ) / (total : ℚ) * 100| = |(covered : ℚ)| / |(total : ℚ)| * 100 := by
    rw [abs_mul, abs_div]
    norm_num
  constructor
  · rw [habs]
    by_cases hc : covered = 0
    · -- covered = 0: the value is a zero, with the sign of total
      subst hc
      refine ⟨0, ?_, hfrac 0, by simp⟩
      rw [percentageStr_eq_formatFixed badVerb verbV 0 total decimals hne hd hd2,
        percentage_float_zero_signed total ht0 ht1 ht2, formatFixed_fin]
      simp [rne]
    · obtain ⟨mp, ep, hP, hPerr⟩ :=
        percentage_float_close_signed covered total hc hc1 hc2 ht0 ht1 ht2
      obtain ⟨hDpos, hND⟩ := scaled_decimal mp ep decimals.toNat
      have hclose := rne_close (mp * 2 ^ ep.toNat * 10 ^ decimals.toNat)
        (2 ^ (-ep).toNat) hDpos
      rw [hND] at hclose
      have hscale := rel_scale _ _ ((10 : ℚ) ^ decimals.toNat) _ (by positivity) hPerr
      refine ⟨rne (mp * 2 ^ ep.toNat * 10 ^ decimals.toNat) (2 ^ (-ep).toNat), ?_,
        hfrac _, ?_⟩
      · rw [percentageStr_eq_formatFixed badVerb verbV covered total decimals hne hd hd2, hP,
          formatFixed_fin]
      · have htri := abs_sub_le
          ((rne (mp * 2 ^ ep.toNat * 10 ^ decimals.toNat) (2 ^ (-ep).toNat) : Nat) : ℚ)
          ((mp : ℚ) * (2 : ℚ) ^ ep * (10 : ℚ) ^ decimals.toNat)
          (|(covered : ℚ)| / |(total : ℚ)| * 100 * (10 : ℚ) ^ decimals.toNat)
        linarith
  · rw [percentageStr_eq_formatFixed badVerb verbV 50 100 2 (by decide) (by decide)
      (by decide)]
    decide

/-- Witness for C17 (amended): one line out of three with a negative count, two decimals,
printed as `-33.33`. -/
theorem percentageStr_rendering_witness :
    ∃ n : Nat, percentageStr noDiag noVerbV (-1) 3 2 = renderFixed true 2 n ∧
      |(n : ℚ) - |((-1 : Int) : ℚ) / ((3 : Int) : ℚ) * 100| * (10 : ℚ) ^ 2|
        ≤ 1 / 2 + |((-1 : Int) : ℚ) / ((3 : Int) : ℚ) * 100| * (10 : ℚ) ^ 2
            * (502 / 100 * (1 / 9007199254740992)) := by
  obtain ⟨n, h1, -, h3⟩ :=
    (percentageStr_rendering noDiag noVerbV (-1) 3 2 (by decide) (by decide) (by decide)
      (by decide) (by decide) (by decide) (by decide)).1
  exact ⟨n, h1, h3⟩

end Medusa
